import Mathlib

/-!
Shallow embedding of the Swiss-tournament engine (iceboxcoldice/swiss_tournament_sim).

The definitions below are translated from the core implementation in
`src/unnamed/part_001` (class `TournamentManager`, local mode); the head-to-head
simulation loop comes from `src/docs/simulator/simulation.js`.  JavaScript
mutation of shared objects is modelled by explicit state passing; `throw` is
modelled by returning the error message together with the state as mutated up
to the throw point (a thrown JS exception leaves all prior mutations in
place).  `Math.random()` draws are modelled by explicit parameters: a `shuffle`
function standing for `shuffleArray` and a list of booleans `coins` supplying
the values consulted by `determineSides` (one entry per call).  Persistence
(`saveToStorage` / `localStorage`) is an external collaborator and is not
modelled; all state that the persistence layer would serialize (including the
two textual log projections) is part of the state record.  Speaker points are
JS numbers used only with `+` and order comparisons; they are modelled as
rationals.
-/

/-- Debate side, `'Aff'` / `'Neg'` in the source. -/
inductive Side where
  | aff : Side
  | neg : Side
deriving DecidableEq, Repr

/-- Speaker points of one match: `{affPoints: [p1, p2], negPoints: [p3, p4]}`,
each component possibly `null`. -/
structure SpeakerPoints where
  affPoints : Option ℚ × Option ℚ
  negPoints : Option ℚ × Option ℚ
deriving DecidableEq, Repr

/-- One entry of `speaker_points_history`: `{round, points: [pt0, pt1]}`. -/
structure SPEntry where
  round : Nat
  points : Option ℚ × Option ℚ
deriving DecidableEq, Repr

/-- A team record (class `Team` in the source).  Members are modelled by their
names only (`members[i].id` is always `i+1` and never read by the core).
Ids are integers so that the bye sentinel `-1` lives in the same type. -/
structure Team where
  id : Int
  name : String
  institution : String
  members : List String
  wins : Nat
  score : Nat
  buchholz : Nat
  opponents : List Int
  aff_count : Nat
  neg_count : Nat
  last_side : Option Side
  side_history : List (Int × List Side)
  break_seed : Option Nat
  speaker_points_history : List SPEntry
deriving DecidableEq, Repr

/-- A fresh team as built by `init` / the `Team` constructor. -/
def Team.fresh (id : Int) (name : String) : Team :=
  { id := id, name := name, institution := "Unknown"
    members := ["Member 1", "Member 2"]
    wins := 0, score := 0, buchholz := 0, opponents := []
    aff_count := 0, neg_count := 0, last_side := none, side_history := []
    break_seed := none, speaker_points_history := [] }

/-- A match record.  `result` is `null` (`none`) or the outcome token `"A"` /
`"N"` kept as a string, exactly as in the source. -/
structure TMatch where
  match_id : Nat
  round_num : Nat
  aff_id : Int
  neg_id : Int
  aff_name : String
  neg_name : String
  result : Option String
  judge_id : Option Int
  speaker_points : Option SpeakerPoints
deriving DecidableEq, Repr

/-- Tournament configuration (`this.data.config`). -/
structure Config where
  num_teams : Nat
  num_prelim_rounds : Nat
  num_elim_rounds : Nat
  num_rounds : Nat
deriving DecidableEq, Repr

/-- Tournament state: the fields of `this.data` used by the core together with
`this.teams`.  The judge registry is untouched by the operations modelled
here and is omitted. -/
structure TState where
  config : Config
  current_round : Nat
  matches' : List TMatch
  next_match_id : Nat
  teams : List Team
  pairing_file_content : String
  result_file_content : String
deriving DecidableEq, Repr

/-- Stable sort by a boolean comparator.  JS `Array.prototype.sort` is stable
(ES2019+); with the total-preorder comparators used by this program a stable
insertion sort computes the same result. -/
def sortBy {α : Type} (le : α → α → Bool) (l : List α) : List α :=
  l.insertionSort (fun a b => le a b = true)

/-- JS `content.split('\n')` over the character list of a string. -/
def charSplitNl : List Char → List (List Char)
  | [] => [[]]
  | c :: cs =>
    if c == '\n' then [] :: charSplitNl cs
    else
      match charSplitNl cs with
      | w :: ws => (c :: w) :: ws
      | [] => [[c]]

/-- The lines of a string content, JS `content.split('\n')`. -/
def jsLines (s : String) : List String :=
  (charSplitNl s.data).map String.mk

/-- JS `lines.join('\n')`. -/
def jsJoinNl (ls : List String) : String :=
  match ls with
  | [] => ""
  | [w] => w
  | w :: ws => w ++ "\n" ++ jsJoinNl ws

/-- JS `line.trim()` (the whitespace of these logs is ASCII). -/
def jsTrim (s : String) : String :=
  String.mk (((s.data.dropWhile Char.isWhitespace).reverse.dropWhile
    Char.isWhitespace).reverse)

/-- JS `line.startsWith(pre)`. -/
def jsStartsWith (s pre : String) : Bool :=
  pre.data.isPrefixOf s.data

/-- JS `s.endsWith('\n')`. -/
def jsEndsWithNl (s : String) : Bool :=
  match s.data.getLast? with
  | some c => c == '\n'
  | none => false

/-- Word accumulation for `trimmed.split(/\s+/)`. -/
def wordsAux : List Char → List Char → List String
  | [], acc => if acc.isEmpty then [] else [String.mk acc.reverse]
  | c :: cs, acc =>
    if c.isWhitespace then
      if acc.isEmpty then wordsAux cs [] else String.mk acc.reverse :: wordsAux cs []
    else wordsAux cs (c :: acc)

/-- Whitespace tokenisation, JS `trimmed.split(/\s+/)` on a trimmed line. -/
def jsWords (line : String) : List String :=
  wordsAux line.data []

/-- The value of JS `Number(tok)` when it is compared with a (positive) match
id: only an all-digit token can be equal; every other token (including `NaN`
from non-numeric text and negative numbers) never matches. -/
def jsNatToken (s : String) : Option Nat :=
  if s.data ≠ [] ∧ s.data.all Char.isDigit then
    some (s.data.foldl (fun n c => n * 10 + (c.toNat - '0'.toNat)) 0)
  else none

/-- Lookup of `team.side_history[opponentId]`, `[]` when absent. -/
def sideHistFor (t : Team) (oid : Int) : List Side :=
  match t.side_history.find? (fun p => p.1 == oid) with
  | some p => p.2
  | none => []

/-- Append a side to `team.side_history[opponentId]`, creating the entry if
missing (the `if (!team.side_history[o]) ... push` idiom). -/
def pushSideHist (h : List (Int × List Side)) (oid : Int) (s : Side) :
    List (Int × List Side) :=
  if h.any (fun p => p.1 == oid) then
    h.map (fun p => if p.1 == oid then (p.1, p.2 ++ [s]) else p)
  else
    h ++ [(oid, [s])]

/-- Apply `f` to the team with the given id (JS `this.teams.find(...)` followed
by in-place mutation; team ids are unique in every reachable roster). -/
def updateTeamById (teams : List Team) (tid : Int) (f : Team → Team) : List Team :=
  teams.map (fun t => if t.id == tid then f t else t)

/-- Side preference (`calculateSidePreference`): `neg_count - aff_count`,
`+2` after a Neg round, `-2` after an Aff round.  The source uses the float
literal `2.0` on integer-valued data; the arithmetic is integral. -/
def calculateSidePreference (t : Team) : Int :=
  let pref : Int := (t.neg_count : Int) - (t.aff_count : Int)
  match t.last_side with
  | some Side.neg => pref + 2
  | some Side.aff => pref - 2
  | none => pref

/-- Side assignment (`determineSides`).  `coin` supplies the value of the
`Math.random() < 0.5` draw used on a preference tie (`true` ↦ `[t1, t2]`). -/
def determineSides (t1 t2 : Team) (isSwappable : Bool) (coin : Bool) :
    Team × Team :=
  let standard :=
    let p1 := calculateSidePreference t1
    let p2 := calculateSidePreference t2
    if p1 > p2 then (t1, t2)
    else if p2 > p1 then (t2, t1)
    else if coin then (t1, t2) else (t2, t1)
  if isSwappable then
    let hist := sideHistFor t1 t2.id
    let canPlayAff := ¬ hist.contains Side.aff
    let canPlayNeg := ¬ hist.contains Side.neg
    if canPlayAff ∧ ¬ canPlayNeg then (t1, t2)
    else if canPlayNeg ∧ ¬ canPlayAff then (t2, t1)
    else standard
  else standard

/-- Does the candidate qualify as a swappable repeat for `t1` (they have met,
but `t1` has not yet played both sides against it)? -/
def swappableWith (t1 : Team) (cand : Team) : Bool :=
  let hist := sideHistFor t1 cand.id
  (!hist.contains Side.aff) || (!hist.contains Side.neg)

/-- Scan loop of `findBestOpponent`: first non-repeat wins immediately; the
first swappable repeat is remembered as fallback. -/
def findBestOpponentAux (t1 : Team) : List Team → Nat → Option (Team × Nat) →
    Option (Team × Nat × Bool)
  | [], _, sw =>
    match sw with
    | some (c, i) => some (c, i, true)
    | none => none
  | c :: cs, i, sw =>
    if t1.opponents.contains c.id then
      let sw' := if sw.isNone && swappableWith t1 c then some (c, i) else sw
      findBestOpponentAux t1 cs (i + 1) sw'
    else
      some (c, i, false)

/-- Best-opponent search (`findBestOpponent`): returns the chosen opponent,
its index in `group`, and whether it is a swappable repeat. -/
def findBestOpponent (t1 : Team) (group : List Team) :
    Option (Team × Nat × Bool) :=
  findBestOpponentAux t1 group 0 none

/-- Recompute Buchholz for every team (`updateBuchholz`): sum of current
opponents' scores, ignoring the bye sentinel `-1` and unknown ids. -/
def updateBuchholzAll (teams : List Team) : List Team :=
  teams.map (fun t =>
    { t with buchholz := t.opponents.foldl (fun sum oid =>
        if oid == -1 then sum
        else match teams.find? (fun o => o.id == oid) with
          | some o => sum + o.score
          | none => sum) 0 })

/-- Recursion worker of `pairGroup`. -/
def pairGroupFuel : Nat → List Team → List Bool →
    List (Team × Team) × List Team × List Bool
  | _, [], coins => ([], [], coins)
  | 0, g, coins => ([], g, coins)
  | fuel + 1, t1 :: rest, coins =>
    match findBestOpponent t1 rest with
    | some (opp, idx, sw) =>
      let pr := determineSides t1 opp sw (coins.headD false)
      let out := pairGroupFuel fuel (rest.eraseIdx idx) coins.tail
      (pr :: out.1, out.2.1, out.2.2)
    | none =>
      let out := pairGroupFuel fuel rest coins
      (out.1, t1 :: out.2.1, out.2.2)

/-- Greedy pairing loop inside one score bracket (`while (group.length > 0)`).
Returns the emitted pairs, the teams floated out, and the unused coins.  Each
loop iteration removes at least one team from the working list, so fuel
`group.length` (never exhausted) makes the loop structurally total. -/
def pairGroup (group : List Team) (coins : List Bool) :
    List (Team × Team) × List Team × List Bool :=
  pairGroupFuel group.length group coins

/-- Within-bracket sort for rounds 3+ (`group.sort`): Buchholz descending,
team id ascending as the stable tiebreak. -/
def bracketLe (a b : Team) : Bool :=
  b.buchholz < a.buchholz || (a.buchholz == b.buchholz && a.id ≤ b.id)

/-- Iterate the score brackets from highest to lowest, carrying floaters into
the next bracket (`for (const score of sortedScores)`). -/
def processBrackets (roundNum : Nat) :
    List (List Team) → List Team → List Bool →
    List (Team × Team) × List Team × List Bool
  | [], floaters, coins => ([], floaters, coins)
  | g :: gs, floaters, coins =>
    let group0 := g ++ floaters
    let group := if roundNum > 2 then sortBy bracketLe group0 else group0
    let step := pairGroup group coins
    let rest := processBrackets roundNum gs step.2.1 step.2.2
    (step.1 ++ rest.1, rest.2.1, rest.2.2)

/-- Score brackets in descending score order (`scoreGroups` plus
`sortedScores`): for rounds 3+ group the (shuffled) teams by exact score. -/
def groupByScoreDesc (teams : List Team) : List (List Team) :=
  let scores := sortBy (fun a b => b ≤ a) ((teams.map (fun t => t.score)).dedup)
  scores.map (fun s => teams.filter (fun t => t.score == s))

/-- Drain the leftover floaters (`while (floaters.length >= 2)`), then award a
bye to a single remaining team.  Returns the extra pairs and the bye team. -/
def drainFloaters : List Team → List Bool →
    List (Team × Team) × Option Team
  | [], _ => ([], none)
  | [t], _ => ([], some t)
  | t1 :: t2 :: rest, coins =>
    let pr := determineSides t1 t2 false (coins.headD false)
    let out := drainFloaters rest coins.tail
    (pr :: out.1, out.2)

/-- Core of `generateSwissPairings` on an already-Buchholz-updated roster:
shuffling, bracket construction, greedy pairing and floater drain.  Returns
the emitted `(aff, neg)` pairs and the team awarded a bye, if any. -/
def swissCore (teams1 : List Team) (roundNum : Nat)
    (shuffle : List Team → List Team) (coins : List Bool) :
    List (Team × Team) × Option Team :=
  let shuffled := shuffle teams1
  let brackets := if roundNum > 2 then groupByScoreDesc shuffled else [shuffled]
  let step := processBrackets roundNum brackets [] coins
  let drained := drainFloaters step.2.1 step.2.2
  (step.1 ++ drained.1, drained.2)

/-- Swiss pairing (`generateSwissPairings`): update Buchholz, pair, and apply
the bye side effect (`byeTeam.score += 1; byeTeam.opponents.push(-1)`) to the
roster.  The function never throws. -/
def generateSwissPairings (s : TState) (roundNum : Nat)
    (shuffle : List Team → List Team) (coins : List Bool) :
    TState × List (Team × Team) :=
  let teams1 := updateBuchholzAll s.teams
  let out := swissCore teams1 roundNum shuffle coins
  let teams2 :=
    match out.2 with
    | some b => updateTeamById teams1 b.id (fun t =>
        { t with score := t.score + 1, opponents := t.opponents ++ [-1] })
    | none => teams1
  ({ s with teams := teams2 }, out.1)

/-- Reset of all derived team stats at the top of `recalculateStats`. -/
def resetTeamStats (t : Team) : Team :=
  { t with wins := 0, score := 0, buchholz := 0, opponents := []
           aff_count := 0, neg_count := 0, last_side := none, side_history := [] }

/-- Effect of replaying one match record on one team (the body of the
`for (const match of sortedMatches)` loop, written pointwise; the affirmative
and negative team of a match are distinct in every reachable state). -/
def applyMatchToTeam (m : TMatch) (t : Team) : Team :=
  if t.id == m.aff_id then
    { t with aff_count := t.aff_count + 1
             opponents := t.opponents ++ [m.neg_id]
             last_side := some Side.aff
             side_history := pushSideHist t.side_history m.neg_id Side.aff
             wins := if m.result == some "A" then t.wins + 1 else t.wins
             score := if m.result == some "A" then t.score + 1 else t.score }
  else if t.id == m.neg_id then
    { t with neg_count := t.neg_count + 1
             opponents := t.opponents ++ [m.aff_id]
             last_side := some Side.neg
             side_history := pushSideHist t.side_history m.aff_id Side.neg
             wins := if m.result == some "N" then t.wins + 1 else t.wins
             score := if m.result == some "N" then t.score + 1 else t.score }
  else t

/-- Match-sort key used by `recalculateStats`: ascending `round_num`
(`sortBy` is stable, like the array sort in current JS engines). -/
def roundLe (a b : TMatch) : Bool :=
  a.round_num ≤ b.round_num

/-- The `current_round` update loop at the end of `recalculateStats`: walk the
rounds from 1, setting `current_round` to each round that is nonempty and
fully reported, and stop at the first round that is not.  The loop never
writes 0: if round 1 is not nonempty-and-complete, the previous value of
`current_round` is kept. -/
def currentRoundLoop (ms : List TMatch) : List Nat → Nat → Nat
  | [], cur => cur
  | r :: rs, cur =>
    let rm := ms.filter (fun m => m.round_num == r)
    if (!rm.isEmpty) && rm.all (fun m => m.result.isSome) then
      currentRoundLoop ms rs r
    else cur

/-- Full rebuild of team statistics from the match log (`recalculateStats`). -/
def recalculateStats (s : TState) : TState :=
  let reset := s.teams.map resetTeamStats
  let sortedMatches := sortBy roundLe s.matches'
  let teams1 := sortedMatches.foldl (fun acc m => acc.map (applyMatchToTeam m)) reset
  let teams2 := updateBuchholzAll teams1
  { s with teams := teams2
           current_round := currentRoundLoop s.matches' (List.range' 1 s.config.num_rounds) s.current_round }

/-- Preliminary-round wins of a team id, counting only reported matches with
`round_num ≤ num_prelim_rounds` (the `oppWins` computation). -/
def prelimWinsOf (s : TState) (tid : Int) : Nat :=
  ((s.matches'.filter (fun m =>
      m.round_num ≤ s.config.num_prelim_rounds &&
      (m.aff_id == tid || m.neg_id == tid) && m.result.isSome)).filter (fun m =>
      (m.aff_id == tid && m.result == some "A") ||
      (m.neg_id == tid && m.result == some "N"))).length

/-- One entry of `getPreliminaryStandings`: the team together with its
prelim wins, score and Buchholz (wins and score coincide in this system). -/
structure PrelimEntry where
  team : Team
  prelim_wins : Nat
  prelim_score : Nat
  prelim_buchholz : Nat
deriving DecidableEq, Repr

/-- Build the preliminary stats of one team (body of the `map` in
`getPreliminaryStandings`). -/
def prelimEntryOf (s : TState) (team : Team) : PrelimEntry :=
  let reported := s.matches'.filter (fun m =>
    m.round_num ≤ s.config.num_prelim_rounds &&
    (m.aff_id == team.id || m.neg_id == team.id) && m.result.isSome)
  let wins := (reported.filter (fun m =>
    (m.aff_id == team.id && m.result == some "A") ||
    (!(m.aff_id == team.id) && m.result == some "N"))).length
  let opponentIds := reported.map (fun m =>
    if m.aff_id == team.id then m.neg_id else m.aff_id)
  let buchholz := opponentIds.foldl (fun sum oid =>
    match s.teams.find? (fun t => t.id == oid) with
    | some _ => sum + prelimWinsOf s oid
    | none => sum) 0
  { team := team, prelim_wins := wins, prelim_score := wins, prelim_buchholz := buchholz }

/-- Comparator of `getPreliminaryStandings`: prelim score desc, prelim
Buchholz desc, prelim wins desc. -/
def prelimLe (a b : PrelimEntry) : Bool :=
  b.prelim_score < a.prelim_score ||
  (a.prelim_score == b.prelim_score &&
    (b.prelim_buchholz < a.prelim_buchholz ||
     (a.prelim_buchholz == b.prelim_buchholz && b.prelim_wins ≤ a.prelim_wins)))

/-- Preliminary standings (`getPreliminaryStandings`): rank all teams using
only preliminary matches. -/
def getPreliminaryStandings (s : TState) : List PrelimEntry :=
  sortBy prelimLe (s.teams.map (prelimEntryOf s))

/-- The `i`-loop of `generateBracketPairings` distributing the complement
pairs `(seeds[i], seeds[n-1-i])` to the two halves by the modulo-4 pattern.
The JS bound is the float `seeds.length / 2`, so `i < half` runs
`⌈n / 2⌉ = (n + 1) / 2` iterations: on an odd-length list the middle element
is handled once more (for `[x]` the loop body runs once with
`highSeed = lowSeed = x`, giving a top half `[x, x]`). -/
def splitHalves (seeds : List Nat) : List Nat × List Nat :=
  let n := seeds.length
  let half := (n + 1) / 2
  (List.range half).foldl (fun (acc : List Nat × List Nat) i =>
    let highSeed := seeds.getD i 0
    let lowSeed := seeds.getD (n - 1 - i) 0
    if i % 4 == 0 || i % 4 == 3 then (acc.1 ++ [highSeed, lowSeed], acc.2)
    else (acc.1, acc.2 ++ [highSeed, lowSeed])) ([], [])

/-- Recursive halving of `generateBracketPairings` (first elimination round).
The JS recursion only stops on lists of length exactly 2; once a recursive
call receives the empty list (as happens for any odd seed count, whose
bottom half is empty) it recurses on `[]` forever and the engine dies with a
stack overflow.  `none` models that divergence: the `fuel` argument bounds
the recursion depth, the result is `none` exactly when the JS would still be
recursing at that depth, and on the power-of-two inputs the feature is meant
for, fuel `seeds.length` is proven sufficient (`bracket_spec`). -/
def generateBracketPairings : Nat → List Nat → Option (List (Nat × Nat))
  | _, [a, b] => some [(a, b)]
  | 0, _ => none
  | fuel + 1, seeds =>
    let halves := splitHalves seeds
    let topHalf := sortBy (fun a b => a ≤ b) halves.1
    let bottomHalf := sortBy (fun a b => a ≤ b) halves.2
    match generateBracketPairings fuel topHalf,
        generateBracketPairings fuel bottomHalf with
    | some topPairings, some bottomPairings =>
      some (topPairings ++ bottomPairings.reverse)
    | _, _ => none

/-- The swap pass over `allPairings`.  The source builds `allPairingsSwapped`
with `allPairings[p].reverse()` for odd `p`; `Array.prototype.reverse`
mutates the array in place, so the emission loop that follows reads the
odd-indexed pairs reversed. -/
def applySwapAliasing (allPairings : List (Nat × Nat)) : List (Nat × Nat) :=
  allPairings.mapIdx (fun p pr => if p % 2 == 0 then pr else (pr.2, pr.1))

/-- Index pairs emitted for the first elimination round on `n` break teams
(`seedIndices = [0..n-1]`, recursive halving, swap pass); `none` when the
halving recursion diverges. -/
def firstElimIndexPairs (n : Nat) : Option (List (Nat × Nat)) :=
  (generateBracketPairings n (List.range n)).map applySwapAliasing

/-- Pair winners sequentially: `[activeTeams[2i], activeTeams[2i+1]]`.  (On an
odd-length list the JS loop would pair the last team with `undefined` and
crash in `determineSides`; reachable brackets always have even length.) -/
def chunkPairs {α : Type} : List α → List (α × α)
  | a :: b :: rest => (a, b) :: chunkPairs rest
  | _ => []

/-- Emit the first-elimination-round team pairs from the seeded break teams
(`pairs.push([activeTeams[highIdx], activeTeams[lowIdx]])`); `none` when the
bracket recursion diverges. -/
def emitFirstRound (activeTeams : List Team) : Option (List (Team × Team)) :=
  (firstElimIndexPairs activeTeams.length).map (fun prs => prs.map (fun pr =>
    (activeTeams.getD pr.1 (Team.fresh 0 ""),
     activeTeams.getD pr.2 (Team.fresh 0 ""))))

/-- Display-mode sort of already-seeded break teams: `break_seed` ascending. -/
def seedLe (a b : Team) : Bool :=
  a.break_seed.getD 0 ≤ b.break_seed.getD 0

/-- Elimination pairing before side assignment
(`generateElimPairingsBeforeAffNegOrder`).  Returns the possibly-updated
state (seed assignment mutates the roster) and the high/low pairs, or the
error thrown.  A winner id that resolves to no team would make the JS crash
when the pair is used; this is modelled as an error.  A diverging bracket
recursion (stack overflow in JS, with the seed assignment already applied)
is modelled as the RangeError the engine would die with. -/
def generateElimPairingsBefore (s : TState) (roundNum : Nat) :
    TState × Except String (List (Team × Team)) :=
  let elimRoundIdx := roundNum - s.config.num_prelim_rounds
  let breakSize := 2 ^ s.config.num_elim_rounds
  if s.teams.length < breakSize then
    (s, Except.error ("Not enough teams for " ++ toString s.config.num_elim_rounds ++
      " elimination rounds (Need " ++ toString breakSize ++ ", have " ++
      toString s.teams.length ++ ")"))
  else if elimRoundIdx == 1 then
    let teamsWithSeeds := s.teams.filter (fun t =>
      match t.break_seed with
      | some b => b ≤ breakSize
      | none => false)
    if teamsWithSeeds.length == breakSize then
      let activeTeams := sortBy seedLe teamsWithSeeds
      match emitFirstRound activeTeams with
      | some prs => (s, Except.ok prs)
      | none => (s, Except.error "RangeError: Maximum call stack size exceeded")
    else
      let prelimStandings := getPreliminaryStandings s
      let tops := (prelimStandings.take breakSize).map (fun e =>
        (s.teams.find? (fun t => t.id == e.team.id)).getD e.team)
      let activeTeams := tops.mapIdx (fun index t =>
        { t with break_seed := some (index + 1) })
      let roster := activeTeams.foldl (fun ts t =>
        updateTeamById ts t.id (fun old => { old with break_seed := t.break_seed })) s.teams
      match emitFirstRound activeTeams with
      | some prs => ({ s with teams := roster }, Except.ok prs)
      | none => ({ s with teams := roster },
          Except.error "RangeError: Maximum call stack size exceeded")
  else
    let prevRound := roundNum - 1
    let prevMatches := s.matches'.filter (fun m => m.round_num == prevRound)
    if prevMatches.any (fun m => m.result == none) then
      (s, Except.error ("Round " ++ toString prevRound ++ " is not complete"))
    else
      match prevMatches.mapM (fun m =>
        if m.result == some "A" then s.teams.find? (fun t => t.id == m.aff_id)
        else s.teams.find? (fun t => t.id == m.neg_id)) with
      | none => (s, Except.error "winner team not found")
      | some winners => (s, Except.ok (chunkPairs winners))

/-- Side assignment over elimination pairs (`generateElimPairings`), one coin
per `determineSides` call. -/
def sideAssignAll : List (Team × Team) → List Bool → List (Team × Team)
  | [], _ => []
  | pr :: rest, coins =>
    determineSides pr.1 pr.2 false (coins.headD false) :: sideAssignAll rest coins.tail

/-- Elimination pairing with sides (`generateElimPairings`). -/
def generateElimPairings (s : TState) (roundNum : Nat) (coins : List Bool) :
    TState × Except String (List (Team × Team)) :=
  match generateElimPairingsBefore s roundNum with
  | (s1, Except.error e) => (s1, Except.error e)
  | (s1, Except.ok prs) => (s1, Except.ok (sideAssignAll prs coins))

/-- Set a match's `result` field (`match.result = outcome`). -/
def setMatchResult (s : TState) (matchId : Nat) (r : Option String) : TState :=
  { s with matches' := s.matches'.map (fun m =>
      if m.match_id == matchId then { m with result := r } else m) }

/-- Textual token of one speaker-point slot (`null` for a missing value; the
decimal rendering of JS numbers is not reproduced — the token text never
feeds back into control flow of the modelled operations). -/
def spToken (p : Option ℚ) : String :=
  match p with
  | some q => toString q
  | none => "null"

/-- The ` A1 A2 N1 N2` suffix of a result line, empty when no points exist. -/
def spStringOf (pts : Option SpeakerPoints) : String :=
  match pts with
  | none => ""
  | some sp =>
    " " ++ spToken sp.affPoints.1 ++ " " ++ spToken sp.affPoints.2 ++
    " " ++ spToken sp.negPoints.1 ++ " " ++ spToken sp.negPoints.2

/-- One result-log line: `Round MatchID AffID NegID Outcome JudgeID [points]`. -/
def resultLineStr (round matchId : Nat) (affId negId : Int) (outcome : String)
    (judgeId : Int) (pts : Option SpeakerPoints) : String :=
  toString round ++ " " ++ toString matchId ++ " " ++ toString affId ++ " " ++
  toString negId ++ " " ++ outcome ++ " " ++ toString judgeId ++ spStringOf pts ++ "\n"

/-- The comment-out pass of `updateResult`: every non-comment line of the
result log whose second field parses to the match id is rewritten as
`# line # Updated/Corrected`.  (`Number(parts[1])` on a non-numeric token is
`NaN` and never equals the id.) -/
def commentOutFor (matchId : Nat) (content : String) : String :=
  let lines := jsLines content
  let newLines := lines.map (fun line =>
    let trimmed := jsTrim line
    if trimmed == "" || jsStartsWith trimmed "#" then line
    else
      let parts := jsWords trimmed
      if 2 ≤ parts.length then
        match jsNatToken (parts.getD 1 "") with
        | some mid => if mid == matchId then "# " ++ line ++ " # Updated/Corrected" else line
        | none => line
      else line)
  jsJoinNl newLines

/-- Update (correct or clear) a match result with no speaker-point argument
(`updateResult(matchId, newOutcome)` with `speakerPoints = null`; this is
also the call `storeSpeakerPoints` makes when the match already has a
result). -/
def updateResultNoStore (s : TState) (matchId : Nat) (newOutcome : Option String) :
    TState × Option String :=
  match s.matches'.find? (fun m => m.match_id == matchId) with
  | none => (s, some ("Match " ++ toString matchId ++ " not found"))
  | some m =>
    if newOutcome ≠ none ∧ newOutcome ≠ some "A" ∧ newOutcome ≠ some "N" then
      (s, some ("Invalid outcome: " ++ toString newOutcome))
    else
      let s1 := setMatchResult s matchId newOutcome
      let content1 := commentOutFor matchId s1.result_file_content
      match newOutcome with
      | some oc =>
        let judgeId := m.judge_id.getD (-1)
        let pointsToLog := m.speaker_points
        let content2 := (if jsEndsWithNl content1 then content1 else content1 ++ "\n") ++
          resultLineStr m.round_num m.match_id m.aff_id m.neg_id oc judgeId pointsToLog
        (recalculateStats { s1 with result_file_content := content2 }, none)
      | none =>
        (recalculateStats { s1 with result_file_content := content1 }, none)

/-- Is one speaker-point slot out of the accepted [0, 30] range? -/
def spOutOfRange (p : Option ℚ) : Bool :=
  match p with
  | some v => v < 0 || 30 < v
  | none => false

/-- Store speaker points on a match and mirror them into the two teams'
`speaker_points_history` (`storeSpeakerPoints`).  Validation precedes every
mutation; if the match already has a result the (speaker-point-free) result
update is re-run to refresh the log line. -/
def storeSpeakerPoints (s : TState) (matchId : Nat) (sp : SpeakerPoints) :
    TState × Option String :=
  match s.matches'.find? (fun m => m.match_id == matchId) with
  | none => (s, some ("Match " ++ toString matchId ++ " not found"))
  | some m =>
    let allPoints := [sp.affPoints.1, sp.affPoints.2, sp.negPoints.1, sp.negPoints.2]
    match allPoints.find? spOutOfRange with
    | some bad =>
      (s, some ("Speaker points must be between 0 and 30, got " ++ toString bad))
    | none =>
      let s1 := { s with matches' := s.matches'.map (fun (mm : TMatch) =>
        if mm.match_id == matchId then { mm with speaker_points := some sp } else mm) }
      let histUpd := fun (pts : Option ℚ × Option ℚ) (t : Team) =>
        { t with speaker_points_history :=
            (t.speaker_points_history.filter (fun e => e.round ≠ m.round_num)) ++
            [{ round := m.round_num, points := pts }] }
      let teams2 :=
        updateTeamById (updateTeamById s1.teams m.aff_id (histUpd sp.affPoints))
          m.neg_id (histUpd sp.negPoints)
      let s2 := { s1 with teams := teams2 }
      if m.result.isSome then updateResultNoStore s2 matchId m.result
      else (s2, none)

/-- Update (correct or clear) a match result (`updateResult`), the general
form taking an optional speaker-point argument. -/
def updateResult (s : TState) (matchId : Nat) (newOutcome : Option String)
    (speakerPoints : Option SpeakerPoints) : TState × Option String :=
  match speakerPoints with
  | none => updateResultNoStore s matchId newOutcome
  | some spts =>
    match s.matches'.find? (fun m => m.match_id == matchId) with
    | none => (s, some ("Match " ++ toString matchId ++ " not found"))
    | some m =>
      if newOutcome ≠ none ∧ newOutcome ≠ some "A" ∧ newOutcome ≠ some "N" then
        (s, some ("Invalid outcome: " ++ toString newOutcome))
      else
        let s1 := setMatchResult s matchId newOutcome
        let content1 := commentOutFor matchId s1.result_file_content
        let s1b := { s1 with result_file_content := content1 }
        match newOutcome with
        | some oc =>
          let stored := storeSpeakerPoints s1b matchId spts
          match stored.2 with
          | some e => (stored.1, some e)
          | none =>
            let judgeId := m.judge_id.getD (-1)
            let c := stored.1.result_file_content
            let content2 := (if jsEndsWithNl c then c else c ++ "\n") ++
              resultLineStr m.round_num m.match_id m.aff_id m.neg_id oc judgeId (some spts)
            (recalculateStats { stored.1 with result_file_content := content2 }, none)
        | none =>
          (recalculateStats s1b, none)

/-- Report a result for a match (`reportResult`, local mode).  The three
up-front validations precede every mutation; `match.result` is set before
speaker points are validated, so an out-of-range speaker point aborts the
call after that one mutation. -/
def reportResult (s : TState) (matchId : Nat) (outcome : String)
    (speakerPoints : Option SpeakerPoints) : TState × Option String :=
  match s.matches'.find? (fun m => m.match_id == matchId) with
  | none => (s, some ("Match " ++ toString matchId ++ " not found"))
  | some m =>
    if m.result.isSome then
      (s, some ("Match " ++ toString matchId ++ " already has a result"))
    else if outcome ≠ "A" ∧ outcome ≠ "N" then
      (s, some ("Invalid outcome: " ++ outcome))
    else
      let s1 := setMatchResult s matchId (some outcome)
      let judgeId := m.judge_id.getD (-1)
      let pointsToLog :=
        match speakerPoints with
        | some spts => some spts
        | none => m.speaker_points
      match speakerPoints with
      | some spts =>
        let stored := storeSpeakerPoints s1 matchId spts
        match stored.2 with
        | some e => (stored.1, some e)
        | none =>
          let line := resultLineStr m.round_num m.match_id m.aff_id m.neg_id outcome judgeId pointsToLog
          let s2 := { stored.1 with result_file_content := stored.1.result_file_content ++ line }
          (recalculateStats s2, none)
      | none =>
        let line := resultLineStr m.round_num m.match_id m.aff_id m.neg_id outcome judgeId pointsToLog
        let s2 := { s1 with result_file_content := s1.result_file_content ++ line }
        (recalculateStats s2, none)

/-- Pair a round (`pairRound`, local mode): completeness check on the earlier
rounds (skipped for rounds 1 and 2), already-paired check, pair generation
(Swiss for preliminary rounds, bracket for elimination rounds), match
creation and pairing-log append. -/
def pairRoundLocal (s : TState) (roundNum : Nat)
    (shuffle : List Team → List Team) (coins : List Bool) : TState × Option String :=
  let incomplete :=
    if roundNum > 2 then
      (List.range' 1 (roundNum - 1)).find? (fun r =>
        (s.matches'.filter (fun m => m.round_num == r)).any (fun m => m.result == none))
    else none
  match incomplete with
  | some r => (s, some ("Round " ++ toString r ++ " is not complete"))
  | none =>
    if (s.matches'.filter (fun m => m.round_num == roundNum)) ≠ [] then
      (s, some ("Round " ++ toString roundNum ++ " already paired"))
    else
      let gen : TState × Except String (List (Team × Team)) :=
        if roundNum ≤ s.config.num_prelim_rounds then
          let out := generateSwissPairings s roundNum shuffle coins
          (out.1, Except.ok out.2)
        else generateElimPairings s roundNum coins
      match gen.2 with
      | Except.error e => (gen.1, some e)
      | Except.ok pairs =>
        let created := pairs.foldl (fun (acc : List TMatch × Nat) pr =>
          (acc.1 ++ [{ match_id := acc.2, round_num := roundNum, aff_id := pr.1.id
                       neg_id := pr.2.id, aff_name := pr.1.name, neg_name := pr.2.name
                       result := none, judge_id := none, speaker_points := none }],
           acc.2 + 1)) ([], gen.1.next_match_id)
        let content := created.1.foldl (fun c m =>
          c ++ toString m.round_num ++ " " ++ toString m.match_id ++ " " ++
          toString m.aff_id ++ " " ++ toString m.neg_id ++ "\n")
          gen.1.pairing_file_content
        ({ gen.1 with matches' := gen.1.matches' ++ created.1
                      next_match_id := created.2
                      pairing_file_content := content }, none)

/-- Initialise a new tournament (`init`, local mode). -/
def initLocal (numTeams numPrelim numElim : Nat) (names : List String) : TState :=
  { config := { num_teams := numTeams, num_prelim_rounds := numPrelim
                num_elim_rounds := numElim, num_rounds := numPrelim + numElim }
    current_round := 0
    matches' := []
    next_match_id := 1
    teams := (List.range numTeams).map (fun i =>
      Team.fresh (Int.ofNat i) (names.getD i ("Team " ++ toString (i + 1))))
    pairing_file_content := "# Format: Round MatchID AffID NegID\n"
    result_file_content := "# Format: Round MatchID AffID NegID Outcome JudgeID [Aff1Pts Aff2Pts Neg1Pts Neg2Pts]\n# JudgeID: Use -1 if no judge assigned\n" }

/-- One row of `getParticipantStandings`. -/
structure Participant where
  teamId : Int
  teamName : String
  institution : String
  memberName : String
  totalPoints : ℚ
  adjustedScore : ℚ
  roundScores : List ℚ
deriving DecidableEq, Repr

/-- Per-round speaker points of one member over the preliminary rounds only,
with missing values dropped. -/
def memberPrelimPoints (s : TState) (team : Team) (memberIdx : Nat) : List ℚ :=
  ((team.speaker_points_history.filter (fun e =>
      e.round ≤ s.config.num_prelim_rounds)).map (fun e =>
      if memberIdx == 0 then e.points.1 else e.points.2)).reduceOption

/-- The adjusted-score computation of `getParticipantStandings`: plain total,
drop-1 (drop the single lowest and highest when more than two values exist)
or drop-2 (drop the two lowest and two highest when more than four exist).
`slice(1, -1)` of the ascending sort is `drop 1` then `dropLast`. -/
def adjustedScoreFor (method : String) (prelimPoints : List ℚ) : ℚ :=
  let totalPoints := prelimPoints.sum
  if method == "total" then totalPoints
  else if method == "drop-1" then
    if prelimPoints.length ≤ 2 then totalPoints
    else (((sortBy (fun a b => a ≤ b) prelimPoints).drop 1).dropLast).sum
  else if method == "drop-2" then
    if prelimPoints.length ≤ 4 then totalPoints
    else ((((sortBy (fun a b => a ≤ b) prelimPoints).drop 2).dropLast).dropLast).sum
  else 0

/-- Build the unsorted participant rows (the nested loops of
`getParticipantStandings`); members without recorded points are skipped. -/
def participantEntries (s : TState) (method : String) : List Participant :=
  s.teams.flatMap (fun team =>
    (List.range team.members.length).filterMap (fun memberIdx =>
      let prelimPoints := memberPrelimPoints s team memberIdx
      if prelimPoints.isEmpty then none
      else some { teamId := team.id, teamName := team.name
                  institution := team.institution
                  memberName := team.members.getD memberIdx ""
                  totalPoints := prelimPoints.sum
                  adjustedScore := adjustedScoreFor method prelimPoints
                  roundScores := prelimPoints }))

/-- Final comparator of `getParticipantStandings`: adjusted score descending,
total descending, member name ascending. -/
def participantLe (a b : Participant) : Bool :=
  b.adjustedScore < a.adjustedScore ||
  (a.adjustedScore == b.adjustedScore &&
    (b.totalPoints < a.totalPoints ||
     (a.totalPoints == b.totalPoints && a.memberName ≤ b.memberName)))

/-- Participant standings (`getParticipantStandings`). -/
def getParticipantStandings (s : TState) (method : String) : List Participant :=
  sortBy participantLe (participantEntries s method)

/-- Aggregates of the head-to-head loop
(`runHeadToHeadSimulation`): total tournaments run, observed matchups and
wins on each side. -/
structure HHResult where
  totalSims : Nat
  matchupCount : Nat
  teamAWins : Nat
  teamBWins : Nat
deriving DecidableEq, Repr

/-- The adaptive `while` loop of `runHeadToHeadSimulation`.  One iteration
runs a whole batch of 100 tournaments; `batch` abstracts the per-batch
observations (new matchups, wins by A, wins by B) gathered from the 100
`runTournament` calls, indexed by the tournaments already simulated.  Each
iteration adds 100 to `totalSims`, so fuel `maxSims` is never exhausted and
the structural recursion is a faithful rendering of the `while` loop. -/
def headToHeadLoop (batch : Nat → Nat × Nat × Nat) (minMatchups maxSims : Nat) :
    Nat → HHResult → HHResult
  | 0, st => st
  | fuel + 1, st =>
    if st.totalSims < maxSims ∧ st.matchupCount < minMatchups then
      let b := batch st.totalSims
      headToHeadLoop batch minMatchups maxSims fuel
        { totalSims := st.totalSims + 100, matchupCount := st.matchupCount + b.1
          teamAWins := st.teamAWins + b.2.1, teamBWins := st.teamBWins + b.2.2 }
    else st

/-- Head-to-head driver (`runHeadToHeadSimulation`): zero counters, hard cap
`maxSimulations || 50000` (the JS `||` treats 0 as absent). -/
def runHeadToHead (batch : Nat → Nat × Nat × Nat) (minMatchups : Nat)
    (maxSimulations : Option Nat) : HHResult :=
  let maxSims :=
    match maxSimulations with
    | some v => if v == 0 then 50000 else v
    | none => 50000
  headToHeadLoop batch minMatchups maxSims maxSims
    { totalSims := 0, matchupCount := 0, teamAWins := 0, teamBWins := 0 }

/-- The teams occurring in a list of (aff, neg) pairs, in emission order. -/
def pairTeamList (prs : List (Team × Team)) : List Team :=
  prs.flatMap (fun p => [p.1, p.2])

/-- The bye recipient as a list (empty when no bye was awarded). -/
def byeList (b : Option Team) : List Team :=
  match b with
  | some t => [t]
  | none => []

/-- Number of matches of the log won by the given team id (reported matches
where it was the winning side). -/
def winsIn (ms : List TMatch) (tid : Int) : Nat :=
  (ms.filter (fun m =>
    (m.aff_id == tid && m.result == some "A") ||
    (m.neg_id == tid && m.result == some "N"))).length

/-- The corrected form of the opponents-length invariant: the non-bye entries
of `opponents` are counted by `aff_count + neg_count` (a bye adds a `-1`
entry but no side count). -/
def oppConsistent (t : Team) : Prop :=
  (t.opponents.filter (fun o => o ≠ -1)).length = t.aff_count + t.neg_count

/-- Membership of a seed in an emitted bracket pair. -/
def pairContains (pr : Nat × Nat) (x : Nat) : Prop :=
  pr.1 = x ∨ pr.2 = x

/-- A bracket pair with the smaller seed written first (the downstream
`determineSides` call reassigns the within-pair order anyway). -/
def normPair (pr : Nat × Nat) : Nat × Nat :=
  (min pr.1 pr.2, max pr.1 pr.2)

/-- Invariant of the seed lists occurring in the recursive halving: strictly
sorted, bounded by `S`, and the entries at mirrored positions sum to `S`. -/
def SymPaired (S : Nat) (l : List Nat) : Prop :=
  l.Sorted (fun a b => a < b) ∧ (∀ x ∈ l, x ≤ S) ∧
  ∀ i, i < l.length → l.getD i 0 + l.getD (l.length - 1 - i) 0 = S

/-- Coin stream used by the concrete scenario runs (every tie broken the same
way; any other stream gives a different but equally valid draw). -/
def coinsTT : List Bool := List.replicate 12 true

/-- Concrete scenario: 2 teams, 1 preliminary round. -/
def stateA : TState := initLocal 2 1 0 ["a", "b"]

/-- Round 1 paired (one match, teams 0 and 1). -/
def stateA1 : TState := (pairRoundLocal stateA 1 id coinsTT).1

/-- The single match reported as an Aff win; `current_round` becomes 1. -/
def stateA2 : TState := (reportResult stateA1 1 "A" none).1

/-- Concrete scenario: 5 teams, 1 preliminary round. -/
def stateB : TState := initLocal 5 1 0 []

/-- Round 1 paired on 5 teams: two matches and a bye for team 4. -/
def stateB1 : TState := (pairRoundLocal stateB 1 id coinsTT).1

/-- Match 1 of the 5-team scenario reported: the rebuild erases the bye. -/
def stateB2 : TState := (reportResult stateB1 1 "A" none).1

/-- Concrete scenario: 4 teams, 5 preliminary rounds. -/
def stateC : TState := initLocal 4 5 0 []

/-- Round 1 of the 4-team scenario paired. -/
def stateC1 : TState := (pairRoundLocal stateC 1 id coinsTT).1

/-- First round-1 match reported. -/
def stateC2 : TState := (reportResult stateC1 1 "A" none).1

/-- Both round-1 matches reported; rounds 2 and 3 are left unpaired. -/
def stateC3 : TState := (reportResult stateC2 2 "A" none).1

/-- Speaker points with an out-of-range value (31 > 30). -/
def badSpeakerPoints : SpeakerPoints :=
  { affPoints := (some 31, some 25), negPoints := (some 24, some 23) }

def oppOf (tid : Int) (m : TMatch) : Option Int :=
  if tid == m.aff_id then some m.neg_id
  else if tid == m.neg_id then some m.aff_id
  else none

def replayWinP (tid : Int) (m : TMatch) : Bool :=
  if tid == m.aff_id then m.result == some "A"
  else (tid == m.neg_id) && (m.result == some "N")

instance (t : Team) : Decidable (oppConsistent t) := by
  unfold oppConsistent
  infer_instance

theorem applyMatch_id (m : TMatch) (t : Team) : (applyMatchToTeam m t).id = t.id := by
  unfold applyMatchToTeam
  split_ifs <;> rfl

theorem applyMatch_name (m : TMatch) (t : Team) : (applyMatchToTeam m t).name = t.name := by
  unfold applyMatchToTeam
  split_ifs <;> rfl

theorem applyMatch_score (m : TMatch) (t : Team) :
    (applyMatchToTeam m t).score = t.score + (if replayWinP t.id m then 1 else 0) := by
  unfold applyMatchToTeam replayWinP
  by_cases h1 : (t.id == m.aff_id) = true <;>
    by_cases h2 : (t.id == m.neg_id) = true <;>
    by_cases h3 : m.result = some "A" <;>
    by_cases h4 : m.result = some "N" <;>
    simp_all

theorem applyMatch_opponents (m : TMatch) (t : Team) :
    (applyMatchToTeam m t).opponents = t.opponents ++ (oppOf t.id m).toList := by
  unfold applyMatchToTeam oppOf
  by_cases h1 : (t.id == m.aff_id) = true <;>
    by_cases h2 : (t.id == m.neg_id) = true <;>
    simp_all

theorem applyMatch_aff (m : TMatch) (t : Team) :
    (applyMatchToTeam m t).aff_count = t.aff_count + (if t.id == m.aff_id then 1 else 0) := by
  unfold applyMatchToTeam
  by_cases h1 : (t.id == m.aff_id) = true <;>
    by_cases h2 : (t.id == m.neg_id) = true <;>
    simp_all

theorem applyMatch_neg (m : TMatch) (t : Team) :
    (applyMatchToTeam m t).neg_count =
      t.neg_count + (if !(t.id == m.aff_id) && (t.id == m.neg_id) then 1 else 0) := by
  unfold applyMatchToTeam
  by_cases h1 : (t.id == m.aff_id) = true <;>
    by_cases h2 : (t.id == m.neg_id) = true <;>
    simp_all

/-- The nested replay loop of `recalculateStats` acts on each team
independently. -/
theorem replay_foldl_map (ms : List TMatch) (ts : List Team) :
    ms.foldl (fun acc m => acc.map (applyMatchToTeam m)) ts =
    ts.map (fun t => ms.foldl (fun t m => applyMatchToTeam m t) t) := by
  induction ms generalizing ts with
  | nil => simp
  | cons m l ih =>
    rw [List.foldl_cons, ih, List.map_map]
    rfl

theorem replayFold_id (t : Team) : ∀ (ms : List TMatch),
    (ms.foldl (fun t m => applyMatchToTeam m t) t).id = t.id := by
  intro ms
  induction ms generalizing t with
  | nil => rfl
  | cons m l ih =>
    rw [List.foldl_cons, ih, applyMatch_id]

theorem replayFold_score : ∀ (ms : List TMatch) (t : Team),
    (ms.foldl (fun t m => applyMatchToTeam m t) t).score =
      t.score + ms.countP (replayWinP t.id) := by
  intro ms
  induction ms with
  | nil => intro t; simp
  | cons m l ih =>
    intro t
    rw [List.foldl_cons, ih, applyMatch_score, List.countP_cons]
    rw [applyMatch_id]
    by_cases h : replayWinP t.id m = true <;> simp [h] <;> omega

theorem replayFold_opponents : ∀ (ms : List TMatch) (t : Team),
    (ms.foldl (fun t m => applyMatchToTeam m t) t).opponents =
      t.opponents ++ ms.filterMap (oppOf t.id) := by
  intro ms
  induction ms with
  | nil => intro t; simp
  | cons m l ih =>
    intro t
    rw [List.foldl_cons, ih, applyMatch_opponents, applyMatch_id,
      List.filterMap_cons]
    cases h : oppOf t.id m <;> simp [h]

theorem replayFold_aff : ∀ (ms : List TMatch) (t : Team),
    (ms.foldl (fun t m => applyMatchToTeam m t) t).aff_count =
      t.aff_count + ms.countP (fun m => t.id == m.aff_id) := by
  intro ms
  induction ms with
  | nil => intro t; simp
  | cons m l ih =>
    intro t
    rw [List.foldl_cons, ih, applyMatch_aff, applyMatch_id, List.countP_cons]
    by_cases h : (t.id == m.aff_id) = true <;> simp [h] <;> omega

theorem replayFold_neg : ∀ (ms : List TMatch) (t : Team),
    (ms.foldl (fun t m => applyMatchToTeam m t) t).neg_count =
      t.neg_count + ms.countP (fun m => !(t.id == m.aff_id) && (t.id == m.neg_id)) := by
  intro ms
  induction ms with
  | nil => intro t; simp
  | cons m l ih =>
    intro t
    rw [List.foldl_cons, ih, applyMatch_neg, applyMatch_id, List.countP_cons]
    by_cases h : (!(t.id == m.aff_id) && (t.id == m.neg_id)) = true <;> simp [h] <;> omega

/-- Members of `updateBuchholzAll` are the original teams with only the
`buchholz` field recomputed. -/
theorem updateBuchholzAll_mem (ts : List Team) (t2 : Team)
    (h : t2 ∈ updateBuchholzAll ts) :
    ∃ t ∈ ts, t2.id = t.id ∧ t2.score = t.score ∧ t2.opponents = t.opponents ∧
      t2.aff_count = t.aff_count ∧ t2.neg_count = t.neg_count := by
  unfold updateBuchholzAll at h
  rw [List.mem_map] at h
  obtain ⟨t, ht, rfl⟩ := h
  exact ⟨t, ht, rfl, rfl, rfl, rfl, rfl⟩

theorem sortBy_perm {α : Type} (le : α → α → Bool) (l : List α) :
    (sortBy le l).Perm l :=
  List.perm_insertionSort _ l

/-- Characterisation of every team after `recalculateStats`: stats are
recomputed from the match log alone. -/
theorem recalc_team_facts (s : TState) (t2 : Team)
    (h : t2 ∈ (recalculateStats s).teams) :
    ∃ t ∈ s.teams,
      t2.id = t.id ∧
      t2.score = s.matches'.countP (replayWinP t.id) ∧
      t2.opponents = (sortBy roundLe s.matches').filterMap (oppOf t.id) ∧
      t2.aff_count = s.matches'.countP (fun m => t.id == m.aff_id) ∧
      t2.neg_count = s.matches'.countP (fun m => !(t.id == m.aff_id) && (t.id == m.neg_id)) := by
  unfold recalculateStats at h
  dsimp only at h
  obtain ⟨t1, ht1, hid, hsc, hop, haf, hng⟩ := updateBuchholzAll_mem _ _ h
  rw [replay_foldl_map, List.map_map, List.mem_map] at ht1
  obtain ⟨t0, ht0, rfl⟩ := ht1
  have hperm := sortBy_perm roundLe s.matches'
  refine ⟨t0, ht0, ?_, ?_, ?_, ?_, ?_⟩
  · rw [hid]
    show (List.foldl (fun t m => applyMatchToTeam m t) (resetTeamStats t0) _).id = _
    rw [replayFold_id]
    rfl
  · rw [hsc]
    show (List.foldl (fun t m => applyMatchToTeam m t) (resetTeamStats t0) _).score = _
    rw [replayFold_score]
    show 0 + _ = _
    rw [Nat.zero_add]
    exact hperm.countP_eq _
  · rw [hop]
    show (List.foldl (fun t m => applyMatchToTeam m t) (resetTeamStats t0) _).opponents = _
    rw [replayFold_opponents]
    rfl
  · rw [haf]
    show (List.foldl (fun t m => applyMatchToTeam m t) (resetTeamStats t0) _).aff_count = _
    rw [replayFold_aff]
    show 0 + _ = _
    rw [Nat.zero_add]
    exact hperm.countP_eq _
  · rw [hng]
    show (List.foldl (fun t m => applyMatchToTeam m t) (resetTeamStats t0) _).neg_count = _
    rw [replayFold_neg]
    show 0 + _ = _
    rw [Nat.zero_add]
    exact hperm.countP_eq _

theorem length_filterMap_eq_countP {α β : Type} (f : α → Option β) : ∀ (l : List α),
    (l.filterMap f).length = l.countP (fun a => (f a).isSome) := by
  intro l
  induction l with
  | nil => simp
  | cons a l ih =>
    rw [List.filterMap_cons, List.countP_cons]
    cases h : f a <;> simp [h, ih]

theorem countP_split_aff_neg {α : Type} (p q : α → Bool) : ∀ (l : List α),
    l.countP (fun a => p a || (!(p a) && q a)) =
      l.countP p + l.countP (fun a => !(p a) && q a) := by
  intro l
  induction l with
  | nil => simp
  | cons a l ih =>
    rw [List.countP_cons, List.countP_cons, List.countP_cons, ih]
    by_cases hp : p a = true <;> by_cases hq : q a = true <;> simp [hp, hq] <;> omega

theorem oppOf_isSome (tid : Int) (m : TMatch) :
    (oppOf tid m).isSome =
      ((tid == m.aff_id) || (!(tid == m.aff_id) && (tid == m.neg_id))) := by
  unfold oppOf
  by_cases h1 : (tid == m.aff_id) = true <;> by_cases h2 : (tid == m.neg_id) = true <;>
    simp [h1, h2]

/-- After `recalculateStats`, the rebuilt `opponents` satisfy the corrected
length invariant whenever the match log contains no `-1` ids. -/
theorem recalc_oppConsistent (s : TState)
    (hids : ∀ m ∈ s.matches', m.aff_id ≠ -1 ∧ m.neg_id ≠ -1) :
    ∀ t2 ∈ (recalculateStats s).teams, oppConsistent t2 := by
  intro t2 h
  obtain ⟨t, ht, hid, hsc, hop, haf, hng⟩ := recalc_team_facts s t2 h
  unfold oppConsistent
  rw [hop, haf, hng]
  have hall : ∀ x ∈ (sortBy roundLe s.matches').filterMap (oppOf t.id),
      (decide (x ≠ -1)) = true := by
    intro x hx
    rw [List.mem_filterMap] at hx
    obtain ⟨m, hm, hfx⟩ := hx
    have hm2 : m ∈ s.matches' := ((sortBy_perm roundLe s.matches').mem_iff).mp hm
    have := hids m hm2
    unfold oppOf at hfx
    by_cases h1 : (t.id == m.aff_id) = true
    · rw [if_pos h1] at hfx
      cases hfx
      simpa using this.2
    · rw [if_neg h1] at hfx
      by_cases h2 : (t.id == m.neg_id) = true
      · rw [if_pos h2] at hfx
        cases hfx
        simpa using this.1
      · rw [if_neg h2] at hfx
        exact Option.noConfusion hfx
  rw [List.filter_eq_self.mpr hall]
  rw [length_filterMap_eq_countP]
  have hpt : ∀ m, (oppOf t.id m).isSome =
      ((t.id == m.aff_id) || (!(t.id == m.aff_id) && (t.id == m.neg_id))) :=
    oppOf_isSome t.id
  calc (sortBy roundLe s.matches').countP (fun a => (oppOf t.id a).isSome)
      = (sortBy roundLe s.matches').countP
          (fun m => (t.id == m.aff_id) || (!(t.id == m.aff_id) && (t.id == m.neg_id))) := by
        apply List.countP_congr
        intro m _
        simp [hpt m]
    _ = s.matches'.countP
          (fun m => (t.id == m.aff_id) || (!(t.id == m.aff_id) && (t.id == m.neg_id))) :=
        (sortBy_perm roundLe s.matches').countP_eq _
    _ = s.matches'.countP (fun m => t.id == m.aff_id) +
        s.matches'.countP (fun m => !(t.id == m.aff_id) && (t.id == m.neg_id)) :=
        countP_split_aff_neg _ _ _

theorem replayWinP_eq_winsP (tid : Int) (m : TMatch) (hd : m.aff_id ≠ m.neg_id) :
    replayWinP tid m = ((m.aff_id == tid && m.result == some "A") ||
      (m.neg_id == tid && m.result == some "N")) := by
  unfold replayWinP
  by_cases h1 : (tid == m.aff_id) = true
  · have e1 : tid = m.aff_id := beq_iff_eq.mp h1
    have ha : (m.aff_id == tid) = true := beq_iff_eq.mpr e1.symm
    have hn : (m.neg_id == tid) = false := by
      rw [beq_eq_false_iff_ne]
      intro he
      exact hd (by omega)
    rw [if_pos h1, ha, hn]
    simp
  · have ha : (m.aff_id == tid) = false := by
      rw [beq_eq_false_iff_ne]
      intro he
      exact h1 (beq_iff_eq.mpr he.symm)
    rw [if_neg h1, ha]
    by_cases h2 : (tid == m.neg_id) = true
    · have hn : (m.neg_id == tid) = true := beq_iff_eq.mpr (beq_iff_eq.mp h2).symm
      rw [h2, hn]
      simp
    · have hn : (m.neg_id == tid) = false := by
        rw [beq_eq_false_iff_ne]
        intro he
        exact h2 (beq_iff_eq.mpr he.symm)
      rw [Bool.of_not_eq_true h2, hn]
      simp

/-- Claim C10: the stat rebuild works from the match log alone, so a bye
(recorded only in team state) is erased by it: afterwards no team's
`opponents` contains `-1` and every score counts exactly the match wins.  In
the concrete 5-team scenario the bye team goes from score 1 / `opponents =
[-1]` right after the pairing to score 0 / `opponents = []` after the first
`reportResult`. -/
theorem recalculate_erases_bye (s : TState)
    (hids : ∀ m ∈ s.matches', m.aff_id ≠ -1 ∧ m.neg_id ≠ -1)
    (hdist : ∀ m ∈ s.matches', m.aff_id ≠ m.neg_id) :
    (∀ t2 ∈ (recalculateStats s).teams, (-1 : Int) ∉ t2.opponents ∧
      t2.score = winsIn s.matches' t2.id) ∧
    ((stateB1.teams.find? (fun t => t.id == 4)).map
      (fun t => (t.score, t.opponents)) = some (1, [-1])) ∧
    ((stateB2.teams.find? (fun t => t.id == 4)).map
      (fun t => (t.score, t.opponents)) = some (0, [])) := by
  refine ⟨?_, by decide, by decide⟩
  intro t2 h
  obtain ⟨t, ht, hid, hsc, hop, haf, hng⟩ := recalc_team_facts s t2 h
  constructor
  · rw [hop]
    intro hmem
    rw [List.mem_filterMap] at hmem
    obtain ⟨m, hm, hfx⟩ := hmem
    have hm2 : m ∈ s.matches' := ((sortBy_perm roundLe s.matches').mem_iff).mp hm
    have hne := hids m hm2
    unfold oppOf at hfx
    by_cases h1 : (t.id == m.aff_id) = true
    · rw [if_pos h1] at hfx
      injection hfx with hx
      exact hne.2 hx
    · rw [if_neg h1] at hfx
      by_cases h2 : (t.id == m.neg_id) = true
      · rw [if_pos h2] at hfx
        injection hfx with hx
        exact hne.1 hx
      · rw [if_neg h2] at hfx
        exact Option.noConfusion hfx
  · rw [hsc, hid]
    unfold winsIn
    rw [← List.countP_eq_length_filter]
    apply List.countP_congr
    intro m hm
    rw [replayWinP_eq_winsP t.id m (hdist m hm)]

theorem oppConsistent_updateBuchholzAll (ts : List Team)
    (h : ∀ t ∈ ts, oppConsistent t) :
    ∀ t ∈ updateBuchholzAll ts, oppConsistent t := by
  intro t2 h2
  unfold updateBuchholzAll at h2
  rw [List.mem_map] at h2
  obtain ⟨t, ht, rfl⟩ := h2
  exact h t ht

theorem oppConsistent_updateTeamById (ts : List Team) (tid : Int) (f : Team → Team)
    (hf : ∀ t, oppConsistent t → oppConsistent (f t))
    (h : ∀ t ∈ ts, oppConsistent t) :
    ∀ t ∈ updateTeamById ts tid f, oppConsistent t := by
  intro t2 h2
  unfold updateTeamById at h2
  rw [List.mem_map] at h2
  obtain ⟨t, ht, rfl⟩ := h2
  by_cases hc : (t.id == tid) = true
  · rw [if_pos hc]
    exact hf t (h t ht)
  · rw [if_neg hc]
    exact h t ht

theorem oppConsistent_bye_update (t : Team) (h : oppConsistent t) :
    oppConsistent { t with score := t.score + 1, opponents := t.opponents ++ [-1] } := by
  unfold oppConsistent at h ⊢
  show ((t.opponents ++ [-1]).filter (fun o => o ≠ -1)).length = t.aff_count + t.neg_count
  rw [List.filter_append]
  have hnil : List.filter (fun o => decide (o ≠ -1)) ([-1] : List Int) = [] := rfl
  rw [hnil, List.append_nil]
  exact h

theorem oppConsistent_swiss (s : TState) (roundNum : Nat)
    (shuffle : List Team → List Team) (coins : List Bool)
    (h : ∀ t ∈ s.teams, oppConsistent t) :
    ∀ t ∈ (generateSwissPairings s roundNum shuffle coins).1.teams, oppConsistent t := by
  unfold generateSwissPairings
  dsimp only
  cases hb : (swissCore (updateBuchholzAll s.teams) roundNum shuffle coins).2 with
  | none => exact oppConsistent_updateBuchholzAll _ h
  | some b =>
    apply oppConsistent_updateTeamById
    · exact fun t ht => oppConsistent_bye_update t ht
    · exact oppConsistent_updateBuchholzAll _ h

theorem oppConsistent_seedFold (l : List Team) : ∀ (ts : List Team),
    (∀ t ∈ ts, oppConsistent t) →
    ∀ t ∈ l.foldl (fun ts u => updateTeamById ts u.id
      (fun old => { old with break_seed := u.break_seed })) ts, oppConsistent t := by
  induction l with
  | nil => exact fun ts h => h
  | cons u l ih =>
    intro ts h
    rw [List.foldl_cons]
    apply ih
    apply oppConsistent_updateTeamById
    · exact fun t ht => ht
    · exact h

theorem oppConsistent_elimBefore (s : TState) (roundNum : Nat)
    (h : ∀ t ∈ s.teams, oppConsistent t) :
    ∀ t ∈ (generateElimPairingsBefore s roundNum).1.teams, oppConsistent t := by
  unfold generateElimPairingsBefore
  dsimp only
  split_ifs with h1 h2 h3 h4
  · exact h
  · split
    · exact h
    · exact h
  · split
    · exact oppConsistent_seedFold _ s.teams h
    · exact oppConsistent_seedFold _ s.teams h
  · exact h
  · cases hm : (s.matches'.filter (fun m => m.round_num == roundNum - 1)).mapM (fun m =>
      if m.result == some "A" then s.teams.find? (fun t => t.id == m.aff_id)
      else s.teams.find? (fun t => t.id == m.neg_id)) with
    | none => exact h
    | some winners => exact h

theorem elimPairings_fst (s : TState) (roundNum : Nat) (coins : List Bool) :
    (generateElimPairings s roundNum coins).1 = (generateElimPairingsBefore s roundNum).1 := by
  unfold generateElimPairings
  rcases hg : generateElimPairingsBefore s roundNum with ⟨s1, r⟩
  cases r <;> rfl

theorem pairRound_preserves_oppConsistent (s : TState) (roundNum : Nat)
    (shuffle : List Team → List Team) (coins : List Bool)
    (h : ∀ t ∈ s.teams, oppConsistent t) :
    ∀ t ∈ (pairRoundLocal s roundNum shuffle coins).1.teams, oppConsistent t := by
  unfold pairRoundLocal
  cases hinc : (if 2 < roundNum then
      (List.range' 1 (roundNum - 1)).find? (fun r =>
        (s.matches'.filter (fun m => m.round_num == r)).any
          (fun m => m.result == none)) else none) with
  | some r => exact h
  | none =>
    dsimp only
    by_cases hpair : (s.matches'.filter (fun m => m.round_num == roundNum)) ≠ []
    · rw [if_pos hpair]
      exact h
    · rw [if_neg hpair]
      by_cases hpre : roundNum ≤ s.config.num_prelim_rounds
      · rw [if_pos hpre]
        dsimp only
        exact fun t ht => oppConsistent_swiss s roundNum shuffle coins h t ht
      · rw [if_neg hpre]
        have hfst := elimPairings_fst s roundNum coins
        have helim := oppConsistent_elimBefore s roundNum h
        rcases hg : generateElimPairings s roundNum coins with ⟨s1, r⟩
        have hs1 : s1 = (generateElimPairingsBefore s roundNum).1 := by
          rw [← hfst, hg]
        cases r with
        | error e =>
          exact fun t ht => helim t (by rw [← hs1]; exact ht)
        | ok prs =>
          intro t ht
          exact helim t (by rw [← hs1]; exact ht)

/-- Claim C4 amended: the invariant holds with byes excluded from the count —
`opponents` restricted to non-`-1` entries has length `aff_count +
neg_count`.  It is preserved by `pair_round` (the bye only appends `-1`),
re-established by the stat rebuild on any `-1`-free match log, and in the
concrete 5-team round-1 scenario the bye team has `-1` in `opponents`,
score 1 and `aff_count + neg_count = 0`. -/
theorem opponents_invariant_amended (s sr : TState) (roundNum : Nat)
    (shuffle : List Team → List Team) (coins : List Bool)
    (h1 : ∀ t ∈ s.teams, oppConsistent t)
    (h2 : ∀ m ∈ sr.matches', m.aff_id ≠ -1 ∧ m.neg_id ≠ -1) :
    (∀ t ∈ (pairRoundLocal s roundNum shuffle coins).1.teams, oppConsistent t) ∧
    (∀ t ∈ (recalculateStats sr).teams, oppConsistent t) ∧
    ((stateB1.teams.find? (fun t => t.id == 4)).map
      (fun t => (t.opponents.contains (-1), t.score, t.aff_count + t.neg_count)) =
        some (true, 1, 0)) ∧
    (∀ t ∈ stateB1.teams, oppConsistent t) :=
  ⟨pairRound_preserves_oppConsistent s roundNum shuffle coins h1,
   recalc_oppConsistent sr h2, by decide, by decide⟩

/-- Witness for the amended C4 theorem at the concrete 5-team scenario. -/
theorem opponents_invariant_amended_witness :
    (∀ t ∈ stateB.teams, oppConsistent t) ∧
    (∀ m ∈ stateB1.matches', m.aff_id ≠ -1 ∧ m.neg_id ≠ -1) ∧
    ((∀ t ∈ (pairRoundLocal stateB 1 id coinsTT).1.teams, oppConsistent t) ∧
     (∀ t ∈ (recalculateStats stateB1).teams, oppConsistent t) ∧
     ((stateB1.teams.find? (fun t => t.id == 4)).map
       (fun t => (t.opponents.contains (-1), t.score, t.aff_count + t.neg_count)) =
         some (true, 1, 0)) ∧
     (∀ t ∈ stateB1.teams, oppConsistent t)) :=
  ⟨by decide, by decide,
   opponents_invariant_amended stateB stateB1 1 id coinsTT (by decide) (by decide)⟩

/-- Claim C1 (code bug evidence): in a 1-round tournament whose only round-1
match was reported and then cleared through `updateResult`, the update
succeeds, the match is back to unreported, no reported match remains — and
`current_round` is still 1, where the specified invariant requires 0
(`recalculateStats` never writes 0, it keeps the stale previous value). -/
theorem currentRound_stale_after_clearing_round1 :
    (updateResult stateA2 1 none none).2 = none ∧
    ((updateResult stateA2 1 none none).1.matches'.find?
      (fun m => m.match_id == 1)).map (fun m => m.result) = some none ∧
    ((updateResult stateA2 1 none none).1.matches'.filter
      (fun m => m.result.isSome)).length = 0 ∧
    (updateResult stateA2 1 none none).1.current_round = 1 := by
  refine ⟨by decide, by decide, by decide, by decide⟩

/-- Claim C4 counterexample: immediately after the 5-team round-1 pairing the
bye team (id 4) has `opponents = [-1]`, score 1 and no side counts, so
`opponents.len() = 1 ≠ 0 = aff_count + neg_count` — the invariant as stated
fails on exactly the scenario the claim cites. -/
theorem opponents_length_fails_on_bye :
    ((stateB1.teams.find? (fun t => t.id == 4)).map
      (fun t => (t.opponents, t.score, t.aff_count, t.neg_count)) =
        some ([-1], 1, 0, 0)) ∧
    ¬ (∀ t ∈ stateB1.teams, t.opponents.length = t.aff_count + t.neg_count) := by
  refine ⟨by decide, by decide⟩

/-- The JS bracket recursion never terminates on the empty seed list: every
fuel depth still leaves it recursing. -/
theorem genBracket_nil_none : ∀ fuel, generateBracketPairings fuel [] = none := by
  intro fuel
  induction fuel with
  | zero => rfl
  | succ f ih =>
    have heq : generateBracketPairings (f + 1) ([] : List Nat) =
        match generateBracketPairings f ([] : List Nat),
            generateBracketPairings f ([] : List Nat) with
        | some tp, some bp => some (tp ++ bp.reverse)
        | _, _ => none := rfl
    rw [heq, ih]

/-- On the single seed `[0]` the bottom half is empty, so the JS recursion
dies in `generateBracketPairings([])`: divergence at every fuel depth. -/
theorem genBracket_single0_none :
    ∀ fuel, generateBracketPairings fuel [0] = none := by
  intro fuel
  cases fuel with
  | zero => rfl
  | succ f =>
    have heq : generateBracketPairings (f + 1) [0] =
        match generateBracketPairings f [0, 0],
            generateBracketPairings f ([] : List Nat) with
        | some tp, some bp => some (tp ++ bp.reverse)
        | _, _ => none := rfl
    rw [heq, genBracket_nil_none f]
    cases generateBracketPairings f [0, 0] <;> rfl

/-- Claim C5 counterexample: with round 1 paired and fully reported and
rounds 2 and 3 left unpaired, `pair_round(4)` succeeds and creates two
round-4 matches — no out-of-sequence rejection.  `R ≤ num_rounds` is not
enforced by a validation check either: with `num_rounds = 1`, `pair_round(2)`
takes the elimination path, assigns `break_seed` over the roster, and then
dies in the bracket recursion (the single-seed call recurses on an empty
half forever — a stack overflow after the mutation, not a typed failure). -/
theorem pairRound_accepts_out_of_sequence :
    ((stateC3.matches'.filter (fun m => m.round_num == 2)).length = 0 ∧
     (stateC3.matches'.filter (fun m => m.round_num == 3)).length = 0) ∧
    (pairRoundLocal stateC3 4 id coinsTT).2 = none ∧
    ((pairRoundLocal stateC3 4 id coinsTT).1.matches'.filter
      (fun m => m.round_num == 4)).length = 2 ∧
    stateA2.config.num_rounds = 1 ∧
    (∀ fuel, generateBracketPairings fuel [0] = none) ∧
    (pairRoundLocal stateA2 2 id coinsTT).2 =
      some "RangeError: Maximum call stack size exceeded" ∧
    (pairRoundLocal stateA2 2 id coinsTT).1.teams.map (fun t => t.break_seed) ≠
      stateA2.teams.map (fun t => t.break_seed) := by
  refine ⟨⟨by decide, by decide⟩, by decide, by decide, by decide,
    genBracket_single0_none, by decide, by decide⟩

/-- Claim C3 counterexample: reporting an outcome together with an
out-of-range speaker point (31) raises the validation error, but the state is
not unchanged — the match's `result` field has already been set to `"A"`. -/
theorem reportResult_mutates_on_speaker_error :
    (reportResult stateA1 1 "A" (some badSpeakerPoints)).2.isSome = true ∧
    (reportResult stateA1 1 "A" (some badSpeakerPoints)).1 ≠ stateA1 ∧
    ((reportResult stateA1 1 "A" (some badSpeakerPoints)).1.matches'.find?
      (fun m => m.match_id == 1)).map (fun m => m.result) = some (some "A") := by
  refine ⟨by decide, by decide, by decide⟩

/-- Invariant of the head-to-head loop: with enough fuel the loop runs until
its stopping condition is false, keeps `totalSims` a multiple of 100, and
overshoots the cap by less than one batch. -/
theorem headToHeadLoop_spec (batch : Nat → Nat × Nat × Nat)
    (minMatchups maxSims : Nat) :
    ∀ (fuel : Nat) (st : HHResult),
      st.totalSims % 100 = 0 →
      st.totalSims < maxSims + 100 →
      maxSims ≤ st.totalSims + 100 * fuel →
      let r := headToHeadLoop batch minMatchups maxSims fuel st
      (minMatchups ≤ r.matchupCount ∨ maxSims ≤ r.totalSims) ∧
      r.totalSims % 100 = 0 ∧ r.totalSims < maxSims + 100 := by
  intro fuel
  induction fuel with
  | zero =>
    intro st h100 hlt hfuel
    refine ⟨?_, h100, hlt⟩
    right
    simpa using hfuel
  | succ fuel ih =>
    intro st h100 hlt hfuel
    by_cases hc : st.totalSims < maxSims ∧ st.matchupCount < minMatchups
    · have hstep := ih { totalSims := st.totalSims + 100
                         matchupCount := st.matchupCount + (batch st.totalSims).1
                         teamAWins := st.teamAWins + (batch st.totalSims).2.1
                         teamBWins := st.teamBWins + (batch st.totalSims).2.2 }
        (by show (st.totalSims + 100) % 100 = 0; omega)
        (by show st.totalSims + 100 < maxSims + 100; omega)
        (by show maxSims ≤ st.totalSims + 100 + 100 * fuel; omega)
      simpa [headToHeadLoop, hc] using hstep
    · have : headToHeadLoop batch minMatchups maxSims (fuel + 1) st = st := by
        simp [headToHeadLoop, hc]
      rw [this]
      exact ⟨by omega, h100, hlt⟩

/-- Claim C9: the head-to-head driver always terminates (it is a total
function), runs whole batches of 100 tournaments, and at return either the
observed matchup count has reached `minMatchups` or the number of simulated
tournaments has reached (and overshoots by less than one batch) the hard
maximum; the aggregates of the partial run are what is returned. -/
theorem headToHead_terminates_with_stop_rule (batch : Nat → Nat × Nat × Nat)
    (minMatchups : Nat) (maxSimulations : Option Nat) :
    (minMatchups ≤ (runHeadToHead batch minMatchups maxSimulations).matchupCount ∨
      (match maxSimulations with
       | some v => if v == 0 then 50000 else v
       | none => 50000) ≤
        (runHeadToHead batch minMatchups maxSimulations).totalSims) ∧
    (runHeadToHead batch minMatchups maxSimulations).totalSims % 100 = 0 ∧
    (runHeadToHead batch minMatchups maxSimulations).totalSims <
      (match maxSimulations with
       | some v => if v == 0 then 50000 else v
       | none => 50000) + 100 := by
  have h := headToHeadLoop_spec batch minMatchups
    (match maxSimulations with
     | some v => if v == 0 then 50000 else v
     | none => 50000)
    (match maxSimulations with
     | some v => if v == 0 then 50000 else v
     | none => 50000)
    { totalSims := 0, matchupCount := 0, teamAWins := 0, teamBWins := 0 }
    (by show (0 : Nat) % 100 = 0; omega)
    (by show (0 : Nat) < _ + 100; omega)
    (by show _ ≤ 0 + 100 * _; omega)
  simpa [runHeadToHead] using h

/-- Length of the sequential winner chunking. -/
theorem chunkPairs_length {α : Type} : ∀ (l : List α),
    (chunkPairs l).length = l.length / 2
  | [] => by simp [chunkPairs]
  | [_] => by simp [chunkPairs]
  | a :: b :: rest => by
    simp [chunkPairs, chunkPairs_length rest]
    omega

/-- The i-th chunked pair is (element 2i, element 2i+1). -/
theorem chunkPairs_getD {α : Type} (d : α) : ∀ (l : List α) (i : Nat),
    2 * i + 1 < l.length →
    (chunkPairs l).getD i (d, d) = (l.getD (2 * i) d, l.getD (2 * i + 1) d)
  | [], i, h => by simp at h
  | [_], i, h => by refine absurd h ?_; simp
  | a :: b :: rest, 0, h => by simp [chunkPairs]
  | a :: b :: rest, i + 1, h => by
    have hr : 2 * i + 1 < rest.length := by simp at h; omega
    have := chunkPairs_getD d rest i hr
    simpa [chunkPairs, List.getD_cons_succ, Nat.mul_add] using this

example : True := trivial

/-- Claim C7: for elimination rounds after the first, the pairing requires all
matches of round R−1 to be reported (otherwise it throws and changes
nothing), collects the winners in the order of that round's match records
(the `prevMatches.map` over the filtered log — no re-sorting, in particular
not by break seed), and pairs winner 2i with winner 2i+1. -/
theorem elim_subsequent_pairs_winners_in_order (s : TState) (roundNum : Nat)
    (hk : 2 ≤ roundNum - s.config.num_prelim_rounds)
    (hsize : 2 ^ s.config.num_elim_rounds ≤ s.teams.length) :
    ((∃ m ∈ s.matches'.filter (fun m => m.round_num == roundNum - 1),
        m.result = none) →
      generateElimPairingsBefore s roundNum =
        (s, Except.error ("Round " ++ toString (roundNum - 1) ++ " is not complete"))) ∧
    (∀ winners,
      (s.matches'.filter (fun m => m.round_num == roundNum - 1)).mapM (fun m =>
        if m.result == some "A" then s.teams.find? (fun t => t.id == m.aff_id)
        else s.teams.find? (fun t => t.id == m.neg_id)) = some winners →
      (∀ m ∈ s.matches'.filter (fun m => m.round_num == roundNum - 1),
        m.result ≠ none) →
      generateElimPairingsBefore s roundNum = (s, Except.ok (chunkPairs winners)) ∧
      (chunkPairs winners).length = winners.length / 2 ∧
      ∀ i, 2 * i + 1 < winners.length →
        (chunkPairs winners).getD i (Team.fresh 0 "", Team.fresh 0 "") =
          (winners.getD (2 * i) (Team.fresh 0 ""),
           winners.getD (2 * i + 1) (Team.fresh 0 ""))) := by
  have hlt : ¬ (s.teams.length < 2 ^ s.config.num_elim_rounds) := by omega
  have hidx : (roundNum - s.config.num_prelim_rounds == 1) = false := by
    simp
    omega
  constructor
  · intro hex
    have hany : (s.matches'.filter (fun m => m.round_num == roundNum - 1)).any
        (fun m => m.result == none) = true := by
      rw [List.any_eq_true]
      obtain ⟨m, hm, hr⟩ := hex
      exact ⟨m, hm, by simp [hr]⟩
    simp [generateElimPairingsBefore, hlt, hidx, hany]
  · intro winners hmap hall
    have hany : (s.matches'.filter (fun m => m.round_num == roundNum - 1)).any
        (fun m => m.result == none) = false := by
      rw [List.any_eq_false]
      intro m hm
      simpa using hall m hm
    refine ⟨?_, chunkPairs_length winners, fun i hi => chunkPairs_getD _ winners i hi⟩
    simp only [generateElimPairingsBefore]
    rw [if_neg hlt]
    simp only [hidx, Bool.false_eq_true, if_false, hany]
    rw [hmap]

/-- Claim C5 amended: within the preliminary phase, `pair_round(R)` fails
exactly when R is already paired, or R > 2 and some match of an earlier
round is unreported; rounds without any matches do not block the sequence
(so R = max(paired_round)+1 is not enforced), and on failure the state is
unchanged. -/
theorem pairRound_prelim_error_characterisation (s : TState) (roundNum : Nat)
    (shuffle : List Team → List Team) (coins : List Bool)
    (hprelim : roundNum ≤ s.config.num_prelim_rounds) :
    ((pairRoundLocal s roundNum shuffle coins).2.isSome = true ↔
      ((2 < roundNum ∧ ∃ r, 1 ≤ r ∧ r < roundNum ∧
         ∃ m ∈ s.matches', m.round_num = r ∧ m.result = none) ∨
       ∃ m ∈ s.matches', m.round_num = roundNum)) ∧
    ((pairRoundLocal s roundNum shuffle coins).2.isSome = true →
      (pairRoundLocal s roundNum shuffle coins).1 = s) := by
  unfold pairRoundLocal
  cases hinc : (if 2 < roundNum then
      (List.range' 1 (roundNum - 1)).find? (fun r =>
        (s.matches'.filter (fun m => m.round_num == r)).any
          (fun m => m.result == none)) else none) with
  | some r =>
    have h3 : 2 < roundNum := by
      by_contra hn
      rw [if_neg hn] at hinc
      exact Option.noConfusion hinc
    rw [if_pos h3] at hinc
    have hmem := List.mem_of_find?_eq_some hinc
    have hp := List.find?_some hinc
    rw [List.any_eq_true] at hp
    obtain ⟨m, hm, hres⟩ := hp
    rw [List.mem_filter] at hm
    constructor
    · simp only [hinc]
      constructor
      · intro _
        left
        have hb := List.mem_range'_1.mp hmem
        exact ⟨h3, r, by omega, by omega, m, hm.1, by simpa using hm.2,
          by simpa using hres⟩
      · intro _
        simp
    · simp only [hinc]
      intro _
      trivial
  | none =>
    by_cases hpair : (s.matches'.filter (fun m => m.round_num == roundNum)) = []
    · have hnone2 : ¬ ((s.matches'.filter (fun m => m.round_num == roundNum)) ≠ []) := by
        simpa using hpair
      simp only [hinc, hnone2, if_false, if_pos hprelim]
      constructor
      · constructor
        · intro habs
          simp at habs
        · rintro (⟨h3, r, hr1, hr2, m, hm, hrn, hres⟩ | ⟨m, hm, hrn⟩)
          · rw [if_pos h3] at hinc
            rw [List.find?_eq_none] at hinc
            exact absurd (by
              rw [List.any_eq_true]
              exact ⟨m, List.mem_filter.mpr ⟨hm, by simpa using hrn⟩, by simpa using hres⟩)
              (hinc r (List.mem_range'_1.mpr ⟨hr1, by omega⟩))
          · have : m ∈ s.matches'.filter (fun mm => mm.round_num == roundNum) :=
              List.mem_filter.mpr ⟨hm, by simpa using hrn⟩
            rw [hpair] at this
            exact absurd this (List.not_mem_nil m)
      · intro habs
        simp at habs
    · simp only [hinc, if_pos hpair]
      constructor
      · constructor
        · intro _
          right
          obtain ⟨m, hm⟩ := List.exists_mem_of_ne_nil _ hpair
          have := List.mem_filter.mp hm
          exact ⟨m, this.1, by simpa using this.2⟩
        · intro _
          simp
      · intro _
        trivial

/-- Updating the matches with the given id commutes with looking that id up. -/
theorem find?_matchId_map (ms : List TMatch) (mid : Nat) (g : TMatch → TMatch)
    (hg : ∀ m, (g m).match_id = m.match_id) :
    (ms.map (fun m => if m.match_id == mid then g m else m)).find?
      (fun m => m.match_id == mid) =
    (ms.find? (fun m => m.match_id == mid)).map g := by
  induction ms with
  | nil => rfl
  | cons m l ih =>
    show List.find? _ ((if (m.match_id == mid) = true then g m else m) :: _) = _
    by_cases h : (m.match_id == mid) = true
    · rw [if_pos h]
      have h2 : ((g m).match_id == mid) = true := by rw [hg]; exact h
      rw [List.find?_cons, h2, List.find?_cons, h]
      rfl
    · rw [if_neg h]
      have hb : (m.match_id == mid) = false := by simpa using h
      rw [List.find?_cons, hb, List.find?_cons, hb]
      exact ih

/-- Claim C3 amended: whenever `reportResult` returns an error, the team
stats, both textual logs and `current_round` are unchanged, and the state is
either exactly the pre-call state (unknown match id, already-reported match,
invalid outcome token) or the pre-call state with only the match's `result`
field already set to the new outcome (the out-of-range speaker point case,
whose validation runs after `match.result = outcome`). -/
theorem reportResult_error_state (s : TState) (matchId : Nat) (outcome : String)
    (sp : Option SpeakerPoints)
    (herr : (reportResult s matchId outcome sp).2.isSome = true) :
    (reportResult s matchId outcome sp).1.teams = s.teams ∧
    (reportResult s matchId outcome sp).1.result_file_content = s.result_file_content ∧
    (reportResult s matchId outcome sp).1.pairing_file_content = s.pairing_file_content ∧
    (reportResult s matchId outcome sp).1.current_round = s.current_round ∧
    ((reportResult s matchId outcome sp).1 = s ∨
      (sp.isSome = true ∧
       (reportResult s matchId outcome sp).1 = setMatchResult s matchId (some outcome))) := by
  unfold reportResult at herr ⊢
  cases hfind : s.matches'.find? (fun m => m.match_id == matchId) with
  | none =>
    exact ⟨rfl, rfl, rfl, rfl, Or.inl rfl⟩
  | some m =>
    rw [hfind] at herr
    dsimp only at herr ⊢
    by_cases hres : m.result.isSome = true
    · rw [if_pos hres] at herr ⊢
      exact ⟨rfl, rfl, rfl, rfl, Or.inl rfl⟩
    · rw [if_neg hres] at herr ⊢
      by_cases hout : outcome ≠ "A" ∧ outcome ≠ "N"
      · rw [if_pos hout] at herr ⊢
        exact ⟨rfl, rfl, rfl, rfl, Or.inl rfl⟩
      · rw [if_neg hout] at herr ⊢
        cases sp with
        | none => simp at herr
        | some spts =>
          have hfind1 : (setMatchResult s matchId (some outcome)).matches'.find?
              (fun mm => mm.match_id == matchId) =
              some { m with result := some outcome } := by
            show ((s.matches'.map fun mm =>
              if mm.match_id == matchId then { mm with result := some outcome } else mm).find?
                (fun mm => mm.match_id == matchId)) = _
            rw [find?_matchId_map s.matches' matchId
              (fun mm => { mm with result := some outcome }) (fun _ => rfl), hfind]
            rfl
          dsimp only at herr ⊢
          unfold storeSpeakerPoints at herr ⊢
          rw [hfind1] at herr ⊢
          dsimp only at herr ⊢
          cases hbad : [spts.affPoints.1, spts.affPoints.2, spts.negPoints.1,
              spts.negPoints.2].find? spOutOfRange with
          | some bad =>
            rw [hbad] at herr
            exact ⟨rfl, rfl, rfl, rfl, Or.inr ⟨rfl, rfl⟩⟩
          | none =>
            rw [hbad] at herr
            dsimp only at herr
            exfalso
            have houtcome : outcome = "A" ∨ outcome = "N" := by
              by_cases hA : outcome = "A"
              · exact Or.inl hA
              · right
                by_contra hN
                exact hout ⟨hA, hN⟩
            have hvalid : ¬ ((some outcome ≠ (none : Option String)) ∧
                some outcome ≠ some "A" ∧ some outcome ≠ some "N") := by
              rcases houtcome with h | h <;> simp [h]
            rw [show ({ m with result := some outcome } : TMatch).result.isSome = true
              from rfl] at herr
            rw [if_pos rfl] at herr
            unfold updateResultNoStore at herr
            rw [show (TState.mk (setMatchResult s matchId (some outcome)).config
              (setMatchResult s matchId (some outcome)).current_round
              ((setMatchResult s matchId (some outcome)).matches'.map fun mm =>
                if mm.match_id == matchId then { mm with speaker_points := some spts } else mm)
              (setMatchResult s matchId (some outcome)).next_match_id
              (updateTeamById (updateTeamById (setMatchResult s matchId (some outcome)).teams
                m.aff_id _) m.neg_id _)
              (setMatchResult s matchId (some outcome)).pairing_file_content
              (setMatchResult s matchId (some outcome)).result_file_content).matches'.find?
                (fun mm => mm.match_id == matchId) =
              some { m with result := some outcome, speaker_points := some spts } from ?_] at herr
            · dsimp only at herr
              rw [if_neg hvalid] at herr
              simp at herr
            · show ((setMatchResult s matchId (some outcome)).matches'.map fun mm =>
                if mm.match_id == matchId then { mm with speaker_points := some spts } else mm).find?
                  (fun mm => mm.match_id == matchId) = _
              rw [find?_matchId_map (setMatchResult s matchId (some outcome)).matches' matchId
                (fun mm => { mm with speaker_points := some spts }) (fun _ => rfl), hfind1]
              rfl

theorem sortBy_sorted {α : Type} (le : α → α → Bool) (l : List α)
    (htot : ∀ a b, le a b = true ∨ le b a = true)
    (htrans : ∀ a b c, le a b = true → le b c = true → le a c = true) :
    (sortBy le l).Sorted (fun a b => le a b = true) := by
  unfold sortBy
  haveI : IsTotal α (fun a b => le a b = true) := ⟨htot⟩
  haveI : IsTrans α (fun a b => le a b = true) := ⟨fun a b c => htrans a b c⟩
  exact List.sorted_insertionSort _ l

theorem mem_getLastD {α : Type} (d : α) (l : List α) (h : l ≠ []) :
    l.getLastD d ∈ l := by
  rw [List.getLastD_eq_getLast?, List.getLast?_eq_getLast l h]
  exact List.getLast_mem h

theorem sorted_head_le {α : Type} (le : α → α → Bool) (a : α) (t : List α)
    (hs : (a :: t).Sorted (fun x y => le x y = true))
    (hrefl : ∀ x, le x x = true) :
    ∀ x ∈ a :: t, le a x = true := by
  intro x hx
  rcases List.mem_cons.mp hx with rfl | hx2
  · exact hrefl x
  · exact (List.pairwise_cons.mp hs).1 x hx2

theorem sorted_le_getLastD {α : Type} (le : α → α → Bool) (d : α) :
    ∀ (l : List α), l.Sorted (fun x y => le x y = true) →
      (∀ x, le x x = true) → ∀ x ∈ l, le x (l.getLastD d) = true := by
  intro l
  induction l with
  | nil => intro _ _ x hx; simp at hx
  | cons a t ih =>
    intro hs hrefl x hx
    cases t with
    | nil =>
      simp only [List.mem_singleton] at hx
      subst hx
      exact hrefl x
    | cons b t2 =>
      rw [List.getLastD_cons]
      rcases List.mem_cons.mp hx with rfl | hx2
      · exact (List.pairwise_cons.mp hs).1 _ (mem_getLastD d (b :: t2) (by simp))
      · exact ih (List.pairwise_cons.mp hs).2 hrefl x hx2

theorem participantLe_total (a b : Participant) :
    participantLe a b = true ∨ participantLe b a = true := by
  unfold participantLe
  simp only [Bool.or_eq_true, Bool.and_eq_true, decide_eq_true_eq, beq_iff_eq]
  rcases lt_trichotomy a.adjustedScore b.adjustedScore with h | h | h
  · exact Or.inr (Or.inl h)
  · rcases lt_trichotomy a.totalPoints b.totalPoints with h2 | h2 | h2
    · exact Or.inr (Or.inr ⟨h.symm, Or.inl h2⟩)
    · rcases le_total a.memberName b.memberName with h3 | h3
      · exact Or.inl (Or.inr ⟨h, Or.inr ⟨h2, h3⟩⟩)
      · exact Or.inr (Or.inr ⟨h.symm, Or.inr ⟨h2.symm, h3⟩⟩)
    · exact Or.inl (Or.inr ⟨h, Or.inl h2⟩)
  · exact Or.inl (Or.inl h)

theorem participantLe_trans (a b c : Participant)
    (h1 : participantLe a b = true) (h2 : participantLe b c = true) :
    participantLe a c = true := by
  unfold participantLe at *
  simp only [Bool.or_eq_true, Bool.and_eq_true, decide_eq_true_eq, beq_iff_eq] at *
  rcases h1 with h1 | ⟨e1, h1⟩
  · rcases h2 with h2 | ⟨e2, h2⟩
    · exact Or.inl (lt_trans h2 h1)
    · exact Or.inl (by rw [← e2]; exact h1)
  · rcases h2 with h2 | ⟨e2, h2⟩
    · exact Or.inl (by rw [e1]; exact h2)
    · right
      refine ⟨e1.trans e2, ?_⟩
      rcases h1 with h1 | ⟨f1, h1⟩
      · rcases h2 with h2 | ⟨f2, h2⟩
        · exact Or.inl (lt_trans h2 h1)
        · exact Or.inl (by rw [← f2]; exact h1)
      · rcases h2 with h2 | ⟨f2, h2⟩
        · exact Or.inl (by rw [f1]; exact h2)
        · exact Or.inr ⟨f1.trans f2, le_trans h1 h2⟩

theorem ratLe_total (a b : ℚ) :
    (decide (a ≤ b)) = true ∨ (decide (b ≤ a)) = true := by
  rcases le_total a b with h | h
  · exact Or.inl (by simpa using h)
  · exact Or.inr (by simpa using h)

theorem ratLe_trans (a b c : ℚ) (h1 : (decide (a ≤ b)) = true)
    (h2 : (decide (b ≤ c)) = true) : (decide (a ≤ c)) = true := by
  simp only [decide_eq_true_eq] at *
  exact le_trans h1 h2

/-- Claim C8: in `drop-1` participant standings, a member with at least three
recorded preliminary point values gets total minus the single lowest and the
single highest (the head and last of the ascending sort); with at most two
values the plain total; the cited concrete list gives 132 and 78; and the
returned list is the participant rows ordered by (adjusted desc, total desc,
name asc). -/
theorem participant_drop1_standings (pts : List ℚ) (h3 : 3 ≤ pts.length)
    (s : TState) (method : String) :
    (adjustedScoreFor "drop-1" pts =
      pts.sum - (sortBy (fun a b => a ≤ b) pts).headD 0 -
        (sortBy (fun a b => a ≤ b) pts).getLastD 0) ∧
    ((sortBy (fun a b => a ≤ b) pts).headD 0 ∈ pts ∧
      ∀ x ∈ pts, (sortBy (fun a b => a ≤ b) pts).headD 0 ≤ x) ∧
    ((sortBy (fun a b => a ≤ b) pts).getLastD 0 ∈ pts ∧
      ∀ x ∈ pts, x ≤ (sortBy (fun a b => a ≤ b) pts).getLastD 0) ∧
    (∀ pts2 : List ℚ, pts2.length ≤ 2 → adjustedScoreFor "drop-1" pts2 = pts2.sum) ∧
    (adjustedScoreFor "drop-1" [24, 27, 30, 25, 26] = 78 ∧
      ([24, 27, 30, 25, 26] : List ℚ).sum = 132) ∧
    ((getParticipantStandings s method).Perm (participantEntries s method) ∧
      (getParticipantStandings s method).Sorted (fun a b => participantLe a b = true)) := by
  have hperm := sortBy_perm (fun (a b : ℚ) => decide (a ≤ b)) pts
  have hsorted := sortBy_sorted (fun (a b : ℚ) => decide (a ≤ b)) pts ratLe_total ratLe_trans
  have hlen : (sortBy (fun (a b : ℚ) => decide (a ≤ b)) pts).length = pts.length :=
    hperm.length_eq
  have hrefl : ∀ x : ℚ, (decide (x ≤ x)) = true := fun x => by simp
  refine ⟨?_, ?_, ?_, ?_, ⟨?_, ?_⟩, ?_⟩
  · -- the drop-1 value
    have hne : ¬ (pts.length ≤ 2) := by omega
    have hform : adjustedScoreFor "drop-1" pts =
        (((sortBy (fun a b => a ≤ b) pts).drop 1).dropLast).sum := by
      unfold adjustedScoreFor
      rw [if_neg (by decide), if_pos (by decide), if_neg hne]
    rw [hform]
    cases hsl : sortBy (fun (a b : ℚ) => decide (a ≤ b)) pts with
    | nil =>
      rw [hsl] at hlen
      simp at hlen
      omega
    | cons a t =>
      have htne : t ≠ [] := by
        intro he
        rw [hsl, he] at hlen
        simp at hlen
        omega
      have hsum : pts.sum = a + t.sum := by
        have := hperm.sum_eq
        rw [hsl] at this
        rw [← this]
        rfl
      have htsplit : t.dropLast ++ [t.getLast htne] = t := List.dropLast_append_getLast htne
      have htsum : t.sum = t.dropLast.sum + t.getLast htne := by
        conv_lhs => rw [← htsplit]
        rw [List.sum_append]
        simp
      have hlast : (a :: t).getLastD 0 = t.getLast htne := by
        rw [List.getLastD_cons, List.getLastD_eq_getLast?,
          List.getLast?_eq_getLast t htne]
        rfl
      have hhead : (a :: t).headD 0 = a := rfl
      show t.dropLast.sum = pts.sum - _ - _
      rw [hhead, hlast, hsum, htsum]
      ring
  · constructor
    · cases hsl : sortBy (fun (a b : ℚ) => decide (a ≤ b)) pts with
      | nil =>
        rw [hsl] at hlen
        simp at hlen
        omega
      | cons a t =>
        have ha : a ∈ sortBy (fun (a b : ℚ) => decide (a ≤ b)) pts := by
          rw [hsl]
          exact List.mem_cons_self a t
        show a ∈ pts
        exact hperm.mem_iff.mp ha
    · intro x hx
      have hx2 : x ∈ sortBy (fun (a b : ℚ) => decide (a ≤ b)) pts := hperm.mem_iff.mpr hx
      cases hsl : sortBy (fun (a b : ℚ) => decide (a ≤ b)) pts with
      | nil =>
        rw [hsl] at hlen
        simp at hlen
        omega
      | cons a t =>
        rw [hsl] at hx2 hsorted
        have := sorted_head_le _ a t hsorted hrefl x hx2
        show a ≤ x
        simpa using this
  · constructor
    · have hne : sortBy (fun (a b : ℚ) => decide (a ≤ b)) pts ≠ [] := by
        intro he
        rw [he] at hlen
        simp at hlen
        omega
      exact hperm.mem_iff.mp (mem_getLastD 0 _ hne)
    · intro x hx
      have hx2 : x ∈ sortBy (fun (a b : ℚ) => decide (a ≤ b)) pts := hperm.mem_iff.mpr hx
      have := sorted_le_getLastD _ 0 _ hsorted hrefl x hx2
      simpa using this
  · intro pts2 hle
    unfold adjustedScoreFor
    rw [if_neg (by decide), if_pos (by decide), if_pos hle]
  · unfold adjustedScoreFor
    rw [if_neg (by decide), if_pos (by decide), if_neg (by decide)]
    norm_num [sortBy, List.insertionSort, List.orderedInsert]
  · norm_num [List.sum_cons, List.sum_nil]
  · exact ⟨sortBy_perm participantLe (participantEntries s method),
      sortBy_sorted participantLe (participantEntries s method)
        participantLe_total participantLe_trans⟩

theorem participant_drop1_standings_witness :
    3 ≤ ([24, 27, 30, 25, 26] : List ℚ).length ∧
    (adjustedScoreFor "drop-1" [24, 27, 30, 25, 26] =
      ([24, 27, 30, 25, 26] : List ℚ).sum -
        (sortBy (fun a b => a ≤ b) ([24, 27, 30, 25, 26] : List ℚ)).headD 0 -
        (sortBy (fun a b => a ≤ b) ([24, 27, 30, 25, 26] : List ℚ)).getLastD 0) :=
  ⟨by decide, (participant_drop1_standings [24, 27, 30, 25, 26] (by decide)
      (initLocal 2 1 0 ["a", "b"]) "drop-1").1⟩

theorem determineSides_cases (t1 t2 : Team) (sw : Bool) (coin : Bool) :
    determineSides t1 t2 sw coin = (t1, t2) ∨
    determineSides t1 t2 sw coin = (t2, t1) := by
  unfold determineSides
  dsimp only
  split_ifs <;> simp

theorem pairTeamList_nil : pairTeamList [] = [] := rfl

theorem pairTeamList_cons (p : Team × Team) (prs : List (Team × Team)) :
    pairTeamList (p :: prs) = p.1 :: p.2 :: pairTeamList prs := rfl

theorem pairTeamList_append (a b : List (Team × Team)) :
    pairTeamList (a ++ b) = pairTeamList a ++ pairTeamList b := by
  unfold pairTeamList
  rw [List.flatMap_append]

theorem pairTeamList_length (prs : List (Team × Team)) :
    (pairTeamList prs).length = 2 * prs.length := by
  induction prs with
  | nil => rfl
  | cons p t ih =>
    rw [pairTeamList_cons]
    simp only [List.length_cons, ih]
    ring

theorem perm_cons_eraseIdx {α : Type} (l : List α) (k : Nat) (x : α)
    (hx : l.get? k = some x) : (x :: l.eraseIdx k).Perm l := by
  induction l generalizing k with
  | nil => simp at hx
  | cons a t ih =>
    cases k with
    | zero =>
      simp at hx
      subst hx
      simp [List.eraseIdx]
    | succ k =>
      simp only [List.get?_cons_succ] at hx
      have h1 := ih k hx
      exact (List.Perm.swap a x (t.eraseIdx k)).trans (List.Perm.cons a h1)

theorem findBestOpponentAux_index (t1 : Team) (rest : List Team) :
    ∀ (l : List Team) (i : Nat) (acc : Option (Team × Nat)),
      rest.drop i = l →
      (∀ c j, acc = some (c, j) → rest.get? j = some c) →
      ∀ opp idx sw, findBestOpponentAux t1 l i acc = some (opp, idx, sw) →
        rest.get? idx = some opp := by
  intro l
  induction l with
  | nil =>
    intro i acc _ hacc opp idx sw hres
    unfold findBestOpponentAux at hres
    cases hc : acc with
    | none =>
      rw [hc] at hres
      exact Option.noConfusion hres
    | some ci =>
      obtain ⟨c, j⟩ := ci
      rw [hc] at hres
      simp only [Option.some.injEq, Prod.mk.injEq] at hres
      obtain ⟨h1, h2, h3⟩ := hres
      subst h1
      subst h2
      exact hacc _ _ hc
  | cons c cs ih =>
    intro i acc hdrop hacc opp idx sw hres
    have hgi : rest.get? i = some c := by
      have h0 : (rest.drop i).get? 0 = some c := by rw [hdrop]; rfl
      rw [List.get?_drop] at h0
      simpa using h0
    have hdrop' : rest.drop (i + 1) = cs := by
      have h1 : rest.drop (i + 1) = (rest.drop i).drop 1 := by
        rw [List.drop_drop]
      rw [h1, hdrop]
      rfl
    unfold findBestOpponentAux at hres
    by_cases hcont : t1.opponents.contains c.id
    · rw [if_pos hcont] at hres
      refine ih (i + 1) _ hdrop' ?_ opp idx sw hres
      intro c' j hj
      by_cases hsw : acc.isNone && swappableWith t1 c
      · rw [if_pos hsw] at hj
        simp only [Option.some.injEq, Prod.mk.injEq] at hj
        obtain ⟨h1, h2⟩ := hj
        subst h1
        subst h2
        exact hgi
      · rw [if_neg hsw] at hj
        exact hacc c' j hj
    · rw [if_neg hcont] at hres
      simp only [Option.some.injEq, Prod.mk.injEq] at hres
      obtain ⟨h1, h2, h3⟩ := hres
      subst h1
      subst h2
      exact hgi

theorem findBestOpponent_index (t1 : Team) (rest : List Team) (opp : Team)
    (idx : Nat) (sw : Bool) (h : findBestOpponent t1 rest = some (opp, idx, sw)) :
    rest.get? idx = some opp :=
  findBestOpponentAux_index t1 rest rest 0 none rfl (by intro c j hj; simp at hj)
    opp idx sw h

theorem pairGroupFuel_perm (fuel : Nat) :
    ∀ (g : List Team) (coins : List Bool), g.length ≤ fuel →
      (pairTeamList (pairGroupFuel fuel g coins).1 ++
        (pairGroupFuel fuel g coins).2.1).Perm g := by
  induction fuel with
  | zero =>
    intro g coins hg
    have hnil : g = [] := List.length_eq_zero.mp (Nat.le_zero.mp hg)
    subst hnil
    simp [pairGroupFuel, pairTeamList]
  | succ fuel ih =>
    intro g coins hg
    cases g with
    | nil => simp [pairGroupFuel, pairTeamList]
    | cons t1 rest =>
      rw [pairGroupFuel]
      cases hf : findBestOpponent t1 rest with
      | some r =>
        obtain ⟨opp, idx, sw⟩ := r
        dsimp only
        rw [pairTeamList_cons]
        have hrest : (rest.eraseIdx idx).length ≤ fuel := by
          have h1 := List.length_eraseIdx_le rest idx
          have h2 : rest.length ≤ fuel := by
            simpa using Nat.succ_le_succ_iff.mp hg
          omega
        have hIH := ih (rest.eraseIdx idx) coins.tail hrest
        have hds := determineSides_cases t1 opp sw (coins.headD false)
        have hidx := findBestOpponent_index t1 rest opp idx sw hf
        have hperm2 : (opp :: rest.eraseIdx idx).Perm rest :=
          perm_cons_eraseIdx rest idx opp hidx
        set pr := determineSides t1 opp sw (coins.headD false) with hpr
        have hfront : [pr.1, pr.2].Perm [t1, opp] := by
          rcases hds with h | h
          · rw [h]
          · rw [h]
            exact List.Perm.swap t1 opp []
        exact ((hfront.append_right _).trans
          (List.Perm.cons t1 (List.Perm.cons opp hIH))).trans
          (List.Perm.cons t1 hperm2)
      | none =>
        dsimp only
        have h2 : rest.length ≤ fuel := by
          simpa using Nat.succ_le_succ_iff.mp hg
        have hIH := ih rest coins h2
        exact List.perm_middle.trans (List.Perm.cons t1 hIH)

theorem pairGroup_perm (group : List Team) (coins : List Bool) :
    (pairTeamList (pairGroup group coins).1 ++ (pairGroup group coins).2.1).Perm
      group :=
  pairGroupFuel_perm group.length group coins (Nat.le_refl _)

theorem drainFloaters_perm : ∀ (l : List Team) (coins : List Bool),
    (pairTeamList (drainFloaters l coins).1 ++
      byeList (drainFloaters l coins).2).Perm l := by
  intro l coins
  induction l, coins using drainFloaters.induct with
  | case1 c => simp [drainFloaters, pairTeamList, byeList]
  | case2 t c => simp [drainFloaters, pairTeamList, byeList]
  | case3 t1 t2 rest coins ih =>
    rw [drainFloaters]
    dsimp only
    rw [pairTeamList_cons]
    have hds := determineSides_cases t1 t2 false (coins.headD false)
    set pr := determineSides t1 t2 false (coins.headD false) with hpr
    have hfront : [pr.1, pr.2].Perm [t1, t2] := by
      rcases hds with h | h
      · rw [h]
      · rw [h]
        exact List.Perm.swap t1 t2 []
    exact (hfront.append_right _).trans
      (List.Perm.cons t1 (List.Perm.cons t2 ih))

theorem perm_bracket_step {α : Type} (P R F2 F1 G GS FL : List α)
    (hpg : (P ++ F1).Perm (G ++ FL)) (hih : (R ++ F2).Perm (GS ++ F1)) :
    ((P ++ R) ++ F2).Perm ((G ++ GS) ++ FL) := by
  have h1 : ((P ++ R) ++ F2).Perm (P ++ (GS ++ F1)) := by
    rw [List.append_assoc]
    exact List.Perm.append_left P hih
  have h2 : (P ++ (GS ++ F1)).Perm ((P ++ F1) ++ GS) := by
    refine (List.Perm.append_left P List.perm_append_comm).trans ?_
    rw [List.append_assoc]
  have h3 : ((P ++ F1) ++ GS).Perm ((G ++ FL) ++ GS) := hpg.append_right GS
  have h4 : ((G ++ FL) ++ GS).Perm ((G ++ GS) ++ FL) := by
    rw [List.append_assoc, List.append_assoc]
    exact List.Perm.append_left G List.perm_append_comm
  exact ((h1.trans h2).trans h3).trans h4

theorem processBrackets_perm (roundNum : Nat) :
    ∀ (gs : List (List Team)) (floaters : List Team) (coins : List Bool),
      (pairTeamList (processBrackets roundNum gs floaters coins).1 ++
        (processBrackets roundNum gs floaters coins).2.1).Perm
        (gs.flatten ++ floaters) := by
  intro gs
  induction gs with
  | nil =>
    intro floaters coins
    simp [processBrackets, pairTeamList]
  | cons g gs ih =>
    intro floaters coins
    rw [processBrackets]
    dsimp only
    rw [pairTeamList_append]
    have hgroup : (if roundNum > 2 then sortBy bracketLe (g ++ floaters)
        else g ++ floaters).Perm (g ++ floaters) := by
      split_ifs
      · exact sortBy_perm bracketLe (g ++ floaters)
      · exact List.Perm.refl _
    have hpg := pairGroup_perm (if roundNum > 2 then sortBy bracketLe (g ++ floaters)
        else g ++ floaters) coins
    have hih := ih (pairGroup (if roundNum > 2 then sortBy bracketLe (g ++ floaters)
        else g ++ floaters) coins).2.1
      (pairGroup (if roundNum > 2 then sortBy bracketLe (g ++ floaters)
        else g ++ floaters) coins).2.2
    rw [List.flatten_cons]
    exact perm_bracket_step _ _ _ _ _ _ _ (hpg.trans hgroup) hih

theorem count_map_if {α : Type} [DecidableEq α] (l : List α) (a : α) (c : Nat) :
    (l.map (fun s => if a = s then c else 0)).sum = l.count a * c := by
  induction l with
  | nil => simp
  | cons b t ih =>
    rw [List.map_cons, List.sum_cons, ih, List.count_cons]
    by_cases h : a = b
    · subst h
      rw [if_pos rfl]
      rw [beq_self_eq_true a, if_pos rfl]
      ring
    · rw [if_neg h]
      have hbeq : (b == a) = false := beq_eq_false_iff_ne.mpr (fun hba => h hba.symm)
      rw [hbeq]
      simp only [Bool.false_eq_true, if_false]
      ring

theorem count_filter_score (teams : List Team) (sc : Nat) (x : Team) :
    (teams.filter (fun t => t.score == sc)).count x =
      if x.score = sc then teams.count x else 0 := by
  by_cases h : x.score = sc
  · rw [if_pos h]
    exact List.count_filter (by simpa using h)
  · rw [if_neg h]
    rw [List.count_eq_zero]
    intro hmem
    have := (List.mem_filter.mp hmem).2
    exact h (by simpa using this)

theorem groupByScoreDesc_perm (teams : List Team) :
    (groupByScoreDesc teams).flatten.Perm teams := by
  rw [List.perm_iff_count]
  intro x
  simp only [groupByScoreDesc]
  rw [List.count_flatten, List.map_map]
  have hmap : (List.map (List.count x ∘ fun s => teams.filter (fun t => t.score == s))
      (sortBy (fun a b => b ≤ a) ((teams.map (fun t => t.score)).dedup))) =
      (List.map (fun s => if x.score = s then teams.count x else 0)
        (sortBy (fun a b => b ≤ a) ((teams.map (fun t => t.score)).dedup))) := by
    refine List.map_congr_left ?_
    intro s _
    exact count_filter_score teams s x
  rw [hmap, count_map_if]
  by_cases hx : x ∈ teams
  · have hnd : (sortBy (fun (a b : Nat) => b ≤ a)
        ((teams.map (fun t => t.score)).dedup)).Nodup :=
      (sortBy_perm _ _).symm.nodup (List.nodup_dedup _)
    have hmem : x.score ∈ sortBy (fun (a b : Nat) => b ≤ a)
        ((teams.map (fun t => t.score)).dedup) :=
      (sortBy_perm _ _).mem_iff.mpr
        (List.mem_dedup.mpr (List.mem_map_of_mem (fun t => t.score) hx))
    rw [List.count_eq_one_of_mem hnd hmem, Nat.one_mul]
  · rw [List.count_eq_zero_of_not_mem hx, Nat.mul_zero]

theorem swissCore_perm (teams1 : List Team) (roundNum : Nat)
    (shuffle : List Team → List Team) (coins : List Bool)
    (hsh : (shuffle teams1).Perm teams1) :
    (pairTeamList (swissCore teams1 roundNum shuffle coins).1 ++
      byeList (swissCore teams1 roundNum shuffle coins).2).Perm teams1 := by
  rw [swissCore]
  dsimp only
  rw [pairTeamList_append, List.append_assoc]
  have hbr : (if roundNum > 2 then groupByScoreDesc (shuffle teams1)
      else [shuffle teams1]).flatten.Perm (shuffle teams1) := by
    split_ifs
    · exact groupByScoreDesc_perm (shuffle teams1)
    · simp
  have hpb := processBrackets_perm roundNum
    (if roundNum > 2 then groupByScoreDesc (shuffle teams1) else [shuffle teams1])
    [] coins
  rw [List.append_nil] at hpb
  have hd := drainFloaters_perm
    (processBrackets roundNum
      (if roundNum > 2 then groupByScoreDesc (shuffle teams1) else [shuffle teams1])
      [] coins).2.1
    (processBrackets roundNum
      (if roundNum > 2 then groupByScoreDesc (shuffle teams1) else [shuffle teams1])
      [] coins).2.2
  exact (((List.Perm.append_left _ hd).trans hpb).trans hbr).trans hsh

/-- Claim C2: the Swiss pairing always terminates with a full assignment.
Assuming only that the shuffle step permutes the roster, the teams of the
emitted `(aff, neg)` pairs together with the bye recipient (when present) are
exactly the (Buchholz-updated) roster, each team occurring exactly once; the
same holds at the level of team ids against the raw roster; and a bye is
awarded precisely when the roster size is odd. -/
theorem swiss_full_assignment (s : TState) (roundNum : Nat)
    (shuffle : List Team → List Team) (coins : List Bool)
    (hsh : (shuffle (updateBuchholzAll s.teams)).Perm (updateBuchholzAll s.teams)) :
    (pairTeamList (generateSwissPairings s roundNum shuffle coins).2 ++
      byeList (swissCore (updateBuchholzAll s.teams) roundNum shuffle coins).2).Perm
      (updateBuchholzAll s.teams) ∧
    ((pairTeamList (generateSwissPairings s roundNum shuffle coins).2 ++
      byeList (swissCore (updateBuchholzAll s.teams) roundNum shuffle coins).2).map
        (fun t => t.id)).Perm (s.teams.map (fun t => t.id)) ∧
    ((swissCore (updateBuchholzAll s.teams) roundNum shuffle coins).2.isSome = true ↔
      ¬ 2 ∣ s.teams.length) ∧
    2 * (generateSwissPairings s roundNum shuffle coins).2.length +
      (byeList (swissCore (updateBuchholzAll s.teams) roundNum shuffle coins).2).length
      = s.teams.length := by
  have h0 : (generateSwissPairings s roundNum shuffle coins).2 =
      (swissCore (updateBuchholzAll s.teams) roundNum shuffle coins).1 := rfl
  have hperm := swissCore_perm (updateBuchholzAll s.teams) roundNum shuffle coins hsh
  have hlen1 : (updateBuchholzAll s.teams).length = s.teams.length := by
    simp [updateBuchholzAll]
  have hids : ((updateBuchholzAll s.teams).map (fun t => t.id)) =
      s.teams.map (fun t => t.id) := by
    rw [updateBuchholzAll, List.map_map]
    rfl
  have hlen2 := hperm.length_eq
  rw [List.length_append, pairTeamList_length] at hlen2
  refine ⟨by rw [h0]; exact hperm, ?_, ?_, ?_⟩
  · rw [h0]
    have := hperm.map (fun t => t.id)
    rw [hids] at this
    exact this
  · cases hb : (swissCore (updateBuchholzAll s.teams) roundNum shuffle coins).2 with
    | none =>
      rw [hb] at hlen2
      simp only [byeList, List.length_nil] at hlen2
      simp only [Option.isSome_none, Bool.false_eq_true, false_iff, not_not]
      omega
    | some b =>
      rw [hb] at hlen2
      simp only [byeList, List.length_singleton] at hlen2
      simp only [Option.isSome_some, true_iff]
      omega
  · rw [h0]
    omega

theorem swiss_full_assignment_witness :
    (id (updateBuchholzAll stateB.teams)).Perm (updateBuchholzAll stateB.teams) ∧
    ((swissCore (updateBuchholzAll stateB.teams) 1 id coinsTT).2.isSome = true ↔
      ¬ 2 ∣ stateB.teams.length) :=
  ⟨List.Perm.refl _,
    (swiss_full_assignment stateB 1 id coinsTT (List.Perm.refl _)).2.2.1⟩

theorem count_map_sub (S : Nat) (y : Nat) :
    ∀ (l : List Nat), (∀ x ∈ l, x ≤ S) →
      (l.map (fun x => S - x)).count y =
        if y ≤ S then l.count (S - y) else 0 := by
  intro l
  induction l with
  | nil => simp
  | cons a t ih =>
    intro hb
    have ha : a ≤ S := hb a (List.mem_cons_self a t)
    have ht : ∀ x ∈ t, x ≤ S := fun x hx => hb x (List.mem_cons_of_mem a hx)
    rw [List.map_cons, List.count_cons, List.count_cons, ih ht]
    by_cases hy : y ≤ S
    · rw [if_pos hy, if_pos hy]
      by_cases he : S - a = y
      · have he2 : S - y = a := by omega
        rw [he2]
        have h1 : (S - a == y) = true := beq_iff_eq.mpr he
        have h2 : (a == a) = true := beq_self_eq_true a
        rw [h1, h2]
      · have he2 : S - y ≠ a := by omega
        have h1 : (S - a == y) = false := beq_eq_false_iff_ne.mpr he
        have h2 : (a == S - y) = false := beq_eq_false_iff_ne.mpr (fun h => he2 h.symm)
        rw [h1, h2]
    · rw [if_neg hy, if_neg hy]
      have he : S - a ≠ y := by omega
      have h1 : (S - a == y) = false := beq_eq_false_iff_ne.mpr he
      rw [h1]
      simp

theorem mirror_of_count_closed (S : Nat) (l : List Nat)
    (hs : l.Sorted (· ≤ ·)) (hb : ∀ x ∈ l, x ≤ S)
    (hc : ∀ x, x ≤ S → l.count x = l.count (S - x)) :
    ∀ i, i < l.length → l.getD i 0 + l.getD (l.length - 1 - i) 0 = S := by
  have hsorted2 : ((l.map (fun x => S - x)).reverse).Sorted (· ≤ ·) := by
    rw [List.Sorted, List.pairwise_reverse, List.pairwise_map]
    exact hs.imp (fun h => Nat.sub_le_sub_left h S)
  have hself : l = (l.map (fun x => S - x)).reverse := by
    haveI : IsAntisymm Nat (· ≤ ·) := ⟨fun a b h1 h2 => Nat.le_antisymm h1 h2⟩
    refine List.eq_of_perm_of_sorted ?_ hs hsorted2
    rw [List.perm_iff_count]
    intro y
    rw [List.count_reverse, count_map_sub S y l hb]
    by_cases hy : y ≤ S
    · rw [if_pos hy]
      exact hc y hy
    · rw [if_neg hy]
      exact List.count_eq_zero.mpr (fun hmem => hy (hb y hmem))
  intro i hi
  have hlen : ((l.map (fun x => S - x)).reverse).length = l.length := by
    simp
  have hi2 : i < ((l.map (fun x => S - x)).reverse).length := by omega
  have hj : l.length - 1 - i < l.length := by omega
  have hstep : l.getD i 0 = S - l.getD (l.length - 1 - i) 0 := by
    conv_lhs => rw [hself]
    rw [List.getD_eq_getElem _ _ hi2, List.getD_eq_getElem _ _ hj]
    rw [List.getElem_reverse]
    rw [List.getElem_map]
    congr 1
    simp
  have hmem : l.getD (l.length - 1 - i) 0 ∈ l := by
    rw [List.getD_eq_getElem _ _ hj]
    exact List.getElem_mem hj
  have := hb _ hmem
  omega

theorem splitHalves_foldl (seeds : List Nat) (n : Nat) :
    ∀ (L : List Nat) (acc : List Nat × List Nat),
      (L.foldl (fun (acc : List Nat × List Nat) i =>
        let highSeed := seeds.getD i 0
        let lowSeed := seeds.getD (n - 1 - i) 0
        if i % 4 == 0 || i % 4 == 3 then (acc.1 ++ [highSeed, lowSeed], acc.2)
        else (acc.1, acc.2 ++ [highSeed, lowSeed])) acc) =
      (acc.1 ++ (L.filter (fun i => i % 4 == 0 || i % 4 == 3)).flatMap
          (fun i => [seeds.getD i 0, seeds.getD (n - 1 - i) 0]),
       acc.2 ++ (L.filter (fun i => !(i % 4 == 0 || i % 4 == 3))).flatMap
          (fun i => [seeds.getD i 0, seeds.getD (n - 1 - i) 0])) := by
  intro L
  induction L with
  | nil =>
    intro acc
    simp
  | cons i L ih =>
    intro acc
    rw [List.foldl_cons]
    by_cases hp : (i % 4 == 0 || i % 4 == 3) = true
    · have hstep : (let highSeed := seeds.getD i 0
          let lowSeed := seeds.getD (n - 1 - i) 0
          if i % 4 == 0 || i % 4 == 3 then
            (acc.1 ++ [highSeed, lowSeed], acc.2)
          else (acc.1, acc.2 ++ [highSeed, lowSeed])) =
          (acc.1 ++ [seeds.getD i 0, seeds.getD (n - 1 - i) 0], acc.2) := by
        dsimp only
        rw [if_pos hp]
      rw [hstep, ih]
      rw [List.filter_cons, if_pos hp, List.filter_cons,
        if_neg (by simp [hp]), List.flatMap_cons]
      simp [List.append_assoc]
    · have hstep : (let highSeed := seeds.getD i 0
          let lowSeed := seeds.getD (n - 1 - i) 0
          if i % 4 == 0 || i % 4 == 3 then
            (acc.1 ++ [highSeed, lowSeed], acc.2)
          else (acc.1, acc.2 ++ [highSeed, lowSeed])) =
          (acc.1, acc.2 ++ [seeds.getD i 0, seeds.getD (n - 1 - i) 0]) := by
        dsimp only
        rw [if_neg (by simpa using hp)]
      rw [hstep, ih]
      rw [List.filter_cons, if_neg hp, List.filter_cons,
        if_pos (by simpa using hp), List.flatMap_cons]
      simp [List.append_assoc]

theorem splitHalves_fst (seeds : List Nat) :
    (splitHalves seeds).1 =
      ((List.range ((seeds.length + 1) / 2)).filter
        (fun i => i % 4 == 0 || i % 4 == 3)).flatMap
        (fun i => [seeds.getD i 0, seeds.getD (seeds.length - 1 - i) 0]) := by
  unfold splitHalves
  rw [splitHalves_foldl seeds seeds.length
    (List.range ((seeds.length + 1) / 2)) ([], [])]
  simp

theorem splitHalves_snd (seeds : List Nat) :
    (splitHalves seeds).2 =
      ((List.range ((seeds.length + 1) / 2)).filter
        (fun i => !(i % 4 == 0 || i % 4 == 3))).flatMap
        (fun i => [seeds.getD i 0, seeds.getD (seeds.length - 1 - i) 0]) := by
  unfold splitHalves
  rw [splitHalves_foldl seeds seeds.length
    (List.range ((seeds.length + 1) / 2)) ([], [])]
  simp

theorem flatMap_pair_length {α β : Type} (f g : α → β) (L : List α) :
    (L.flatMap (fun i => [f i, g i])).length = 2 * L.length := by
  induction L with
  | nil => rfl
  | cons a t ih =>
    rw [List.flatMap_cons, List.length_append, ih]
    simp
    ring

theorem count_flatMap_pair (y : Nat) (ch : Nat → List Nat) (L : List Nat) :
    (L.flatMap ch).count y = (L.map (fun i => (ch i).count y)).sum := by
  induction L with
  | nil => rfl
  | cons a t ih =>
    rw [List.flatMap_cons, List.count_append, ih, List.map_cons, List.sum_cons]

theorem range_filter_topcount : ∀ h : Nat,
    ((List.range h).filter (fun i => i % 4 == 0 || i % 4 == 3)).length =
      2 * (h / 4) + min (h % 4) 1 := by
  intro h
  induction h with
  | zero => rfl
  | succ h ih =>
    rw [List.range_succ, List.filter_append, List.length_append, ih]
    by_cases hp : (h % 4 == 0 || h % 4 == 3) = true
    · have hval : (List.filter (fun i => i % 4 == 0 || i % 4 == 3) [h]).length = 1 := by
        rw [List.filter_cons, if_pos hp]
        rfl
      rw [hval]
      have harith : h % 4 = 0 ∨ h % 4 = 3 := by
        rcases Bool.or_eq_true_iff.mp hp with h1 | h1
        · exact Or.inl (by simpa using h1)
        · exact Or.inr (by simpa using h1)
      omega
    · have hval : (List.filter (fun i => i % 4 == 0 || i % 4 == 3) [h]).length = 0 := by
        rw [List.filter_cons, if_neg hp]
        rfl
      rw [hval]
      have harith : ¬ (h % 4 = 0 ∨ h % 4 = 3) := by
        intro hc
        rcases hc with h1 | h1 <;> simp [h1] at hp
      omega

theorem filter_not_length {α : Type} (p : α → Bool) (L : List α) :
    (L.filter p).length + (L.filter (fun i => !(p i))).length = L.length := by
  induction L with
  | nil => rfl
  | cons a t ih =>
    rw [List.filter_cons, List.filter_cons]
    by_cases hp : p a = true
    · rw [if_pos hp, if_neg (by simp [hp])]
      simp only [List.length_cons]
      omega
    · rw [if_neg hp, if_pos (by simpa using hp)]
      simp only [List.length_cons]
      omega

theorem natLe_total (a b : Nat) :
    (decide (a ≤ b)) = true ∨ (decide (b ≤ a)) = true := by
  rcases Nat.le_total a b with h | h
  · exact Or.inl (by simpa using h)
  · exact Or.inr (by simpa using h)

theorem natLe_trans (a b c : Nat) (h1 : (decide (a ≤ b)) = true)
    (h2 : (decide (b ≤ c)) = true) : (decide (a ≤ c)) = true := by
  simp only [decide_eq_true_eq] at *
  omega

theorem sortByNat_sorted (l : List Nat) :
    (sortBy (fun a b => a ≤ b) l).Sorted (· ≤ ·) := by
  unfold sortBy
  haveI : IsTotal Nat (fun a b => (fun a b => decide (a ≤ b)) a b = true) :=
    ⟨natLe_total⟩
  haveI : IsTrans Nat (fun a b => (fun a b => decide (a ≤ b)) a b = true) :=
    ⟨natLe_trans⟩
  have hs := List.sorted_insertionSort
    (fun a b => (fun (a b : Nat) => decide (a ≤ b)) a b = true) l
  exact hs.imp (fun h => by simpa using h)

theorem sorted_getD_mono (l : List Nat) (hs : l.Sorted (· ≤ ·)) (i j : Nat)
    (hij : i ≤ j) (hj : j < l.length) : l.getD i 0 ≤ l.getD j 0 := by
  rcases Nat.eq_or_lt_of_le hij with rfl | hlt
  · exact Nat.le_refl _
  · have hi : i < l.length := lt_of_le_of_lt hij hj
    rw [List.getD_eq_getElem _ _ hi, List.getD_eq_getElem _ _ hj]
    exact List.Sorted.rel_get_of_lt hs hlt

theorem sorted_getD_zero_eq_min (l : List Nat) (x : Nat)
    (hs : l.Sorted (· ≤ ·)) (hx : x ∈ l) (hmin : ∀ y ∈ l, x ≤ y) :
    l.getD 0 0 = x := by
  cases l with
  | nil => cases hx
  | cons a t =>
    have h1 : x ≤ a := hmin a (List.mem_cons_self a t)
    have h2 : a ≤ x := by
      rcases List.mem_cons.mp hx with h | h
      · omega
      · exact (List.pairwise_cons.mp hs).1 x h
    show a = x
    omega

theorem count_pair_symm (S a b x : Nat) (hab : a + b = S) (hx : x ≤ S) :
    List.count x [a, b] = List.count (S - x) [a, b] := by
  have e : ∀ y : Nat, List.count y [a, b] =
      (if a = y then 1 else 0) + (if b = y then 1 else 0) := by
    intro y
    simp only [List.count_cons, List.count_nil]
    by_cases h1 : a = y <;> by_cases h2 : b = y <;>
      simp [h1, h2]
  rw [e x, e (S - x)]
  have hb1 : a = S - x ↔ b = x := by omega
  have hb2 : b = S - x ↔ a = x := by omega
  have h1 : (if a = S - x then 1 else 0) = (if b = x then 1 else 0) := by
    by_cases h : b = x
    · rw [if_pos (hb1.mpr h), if_pos h]
    · rw [if_neg (fun hh => h (hb1.mp hh)), if_neg h]
  have h2 : (if b = S - x then 1 else 0) = (if a = x then 1 else 0) := by
    by_cases h : a = x
    · rw [if_pos (hb2.mpr h), if_pos h]
    · rw [if_neg (fun hh => h (hb2.mp hh)), if_neg h]
  rw [h1, h2]
  omega

theorem sorted_getD_zero_le (l : List Nat) (hs : l.Sorted (· ≤ ·)) :
    ∀ y ∈ l, l.getD 0 0 ≤ y := by
  cases l with
  | nil => intro y hy; cases hy
  | cons a t =>
    intro y hy
    rcases List.mem_cons.mp hy with rfl | h
    · exact Nat.le_refl _
    · exact (List.pairwise_cons.mp hs).1 y h

theorem top_mem_decomp (l : List Nat) (x : Nat)
    (hx : x ∈ sortBy (fun a b => a ≤ b) (splitHalves l).1) :
    ∃ i, i < (l.length + 1) / 2 ∧ (i % 4 == 0 || i % 4 == 3) = true ∧
      (x = l.getD i 0 ∨ x = l.getD (l.length - 1 - i) 0) := by
  have hx2 : x ∈ (splitHalves l).1 := (sortBy_perm _ _).mem_iff.mp hx
  rw [splitHalves_fst] at hx2
  obtain ⟨i, hi, hxi⟩ := List.mem_flatMap.mp hx2
  have hif := List.mem_filter.mp hi
  refine ⟨i, List.mem_range.mp hif.1, hif.2, ?_⟩
  rcases List.mem_cons.mp hxi with h | h
  · exact Or.inl h
  · rcases List.mem_cons.mp h with h2 | h2
    · exact Or.inr h2
    · cases h2

theorem bottom_mem_decomp (l : List Nat) (x : Nat)
    (hx : x ∈ sortBy (fun a b => a ≤ b) (splitHalves l).2) :
    ∃ i, i < (l.length + 1) / 2 ∧ (i % 4 == 0 || i % 4 == 3) = false ∧
      (x = l.getD i 0 ∨ x = l.getD (l.length - 1 - i) 0) := by
  have hx2 : x ∈ (splitHalves l).2 := (sortBy_perm _ _).mem_iff.mp hx
  rw [splitHalves_snd] at hx2
  obtain ⟨i, hi, hxi⟩ := List.mem_flatMap.mp hx2
  have hif := List.mem_filter.mp hi
  refine ⟨i, List.mem_range.mp hif.1, by simpa using hif.2, ?_⟩
  rcases List.mem_cons.mp hxi with h | h
  · exact Or.inl h
  · rcases List.mem_cons.mp h with h2 | h2
    · exact Or.inr h2
    · cases h2

theorem getD_mem_of_lt (l : List Nat) (i : Nat) (hi : i < l.length) :
    l.getD i 0 ∈ l := by
  rw [List.getD_eq_getElem _ _ hi]
  exact List.getElem_mem hi

theorem split_top_spec (S : Nat) (l : List Nat) (hn4 : 4 ≤ l.length)
    (heven : l.length % 2 = 0) (hhe : (l.length / 2) % 2 = 0)
    (hs : l.Sorted (· ≤ ·)) (hb : ∀ x ∈ l, x ≤ S)
    (hc : ∀ x, x ≤ S → l.count x = l.count (S - x)) :
    (sortBy (fun a b => a ≤ b) (splitHalves l).1).length = l.length / 2 ∧
    (sortBy (fun a b => a ≤ b) (splitHalves l).1).Sorted (· ≤ ·) ∧
    (∀ x ∈ sortBy (fun a b => a ≤ b) (splitHalves l).1, x ∈ l) ∧
    (∀ x, x ≤ S → (sortBy (fun a b => a ≤ b) (splitHalves l).1).count x =
      (sortBy (fun a b => a ≤ b) (splitHalves l).1).count (S - x)) ∧
    (sortBy (fun a b => a ≤ b) (splitHalves l).1).getD 0 0 = l.getD 0 0 := by
  have hmirror := mirror_of_count_closed S l hs hb hc
  have hperm := sortBy_perm (fun (a b : Nat) => decide (a ≤ b)) (splitHalves l).1
  have hmemdec := top_mem_decomp l
  have hmeml : ∀ x ∈ sortBy (fun a b => a ≤ b) (splitHalves l).1, x ∈ l := by
    intro x hx
    obtain ⟨i, hi, _, hform⟩ := hmemdec x hx
    rcases hform with h | h
    · subst h
      exact getD_mem_of_lt l i (by omega)
    · subst h
      exact getD_mem_of_lt l (l.length - 1 - i) (by omega)
  refine ⟨?_, sortByNat_sorted _, hmeml, ?_, ?_⟩
  · rw [hperm.length_eq, splitHalves_fst,
      flatMap_pair_length (fun i => l.getD i 0)
        (fun i => l.getD (l.length - 1 - i) 0), range_filter_topcount]
    omega
  · intro x hx
    rw [hperm.count_eq, hperm.count_eq, splitHalves_fst,
      count_flatMap_pair, count_flatMap_pair]
    congr 1
    refine List.map_congr_left ?_
    intro i hi
    have hif := List.mem_filter.mp hi
    have hilt : i < (l.length + 1) / 2 := List.mem_range.mp hif.1
    exact count_pair_symm S _ _ x (hmirror i (by omega)) hx
  · refine sorted_getD_zero_eq_min _ _ (sortByNat_sorted _) ?_ ?_
    · refine hperm.mem_iff.mpr ?_
      rw [splitHalves_fst]
      refine List.mem_flatMap.mpr ⟨0, ?_, ?_⟩
      · refine List.mem_filter.mpr ⟨List.mem_range.mpr (by omega), by decide⟩
      · exact List.mem_cons_self _ _
    · intro y hy
      exact sorted_getD_zero_le l hs y (hmeml y hy)

theorem split_bottom_spec (S : Nat) (l : List Nat) (hn4 : 4 ≤ l.length)
    (heven : l.length % 2 = 0) (hhe : (l.length / 2) % 2 = 0)
    (hs : l.Sorted (· ≤ ·)) (hb : ∀ x ∈ l, x ≤ S)
    (hc : ∀ x, x ≤ S → l.count x = l.count (S - x)) :
    (sortBy (fun a b => a ≤ b) (splitHalves l).2).length = l.length / 2 ∧
    (sortBy (fun a b => a ≤ b) (splitHalves l).2).Sorted (· ≤ ·) ∧
    (∀ x ∈ sortBy (fun a b => a ≤ b) (splitHalves l).2, x ∈ l) ∧
    (∀ x, x ≤ S → (sortBy (fun a b => a ≤ b) (splitHalves l).2).count x =
      (sortBy (fun a b => a ≤ b) (splitHalves l).2).count (S - x)) ∧
    (sortBy (fun a b => a ≤ b) (splitHalves l).2).getD 0 0 = l.getD 1 0 := by
  have hmirror := mirror_of_count_closed S l hs hb hc
  have hperm := sortBy_perm (fun (a b : Nat) => decide (a ≤ b)) (splitHalves l).2
  have hmemdec := bottom_mem_decomp l
  have hmeml : ∀ x ∈ sortBy (fun a b => a ≤ b) (splitHalves l).2, x ∈ l := by
    intro x hx
    obtain ⟨i, hi, _, hform⟩ := hmemdec x hx
    rcases hform with h | h
    · subst h
      exact getD_mem_of_lt l i (by omega)
    · subst h
      exact getD_mem_of_lt l (l.length - 1 - i) (by omega)
  refine ⟨?_, sortByNat_sorted _, hmeml, ?_, ?_⟩
  · rw [hperm.length_eq, splitHalves_snd,
      flatMap_pair_length (fun i => l.getD i 0)
        (fun i => l.getD (l.length - 1 - i) 0)]
    have := filter_not_length (fun i => i % 4 == 0 || i % 4 == 3)
      (List.range ((l.length + 1) / 2))
    rw [range_filter_topcount] at this
    rw [List.length_range] at this
    omega
  · intro x hx
    rw [hperm.count_eq, hperm.count_eq, splitHalves_snd,
      count_flatMap_pair, count_flatMap_pair]
    congr 1
    refine List.map_congr_left ?_
    intro i hi
    have hif := List.mem_filter.mp hi
    have hilt : i < (l.length + 1) / 2 := List.mem_range.mp hif.1
    exact count_pair_symm S _ _ x (hmirror i (by omega)) hx
  · refine sorted_getD_zero_eq_min _ _ (sortByNat_sorted _) ?_ ?_
    · refine hperm.mem_iff.mpr ?_
      rw [splitHalves_snd]
      refine List.mem_flatMap.mpr ⟨1, ?_, ?_⟩
      · refine List.mem_filter.mpr ⟨List.mem_range.mpr (by omega), by decide⟩
      · exact List.mem_cons_self _ _
    · intro y hy
      obtain ⟨i, hilt, hpf, hform⟩ := hmemdec y hy
      have hine : i ≠ 0 := by
        intro h
        subst h
        simp at hpf
      rcases hform with h | h
      · subst h
        exact sorted_getD_mono l hs 1 i (by omega) (by omega)
      · subst h
        exact sorted_getD_mono l hs 1 (l.length - 1 - i) (by omega) (by omega)

theorem bracket_base (S : Nat) (fuel : Nat) (a b : Nat)
    (hs : ([a, b] : List Nat).Sorted (· ≤ ·))
    (hb : ∀ x ∈ ([a, b] : List Nat), x ≤ S)
    (hc : ∀ x, x ≤ S → ([a, b] : List Nat).count x = ([a, b] : List Nat).count (S - x)) :
    ∃ ps, generateBracketPairings fuel [a, b] = some ps ∧
      ps.length = ([a, b] : List Nat).length / 2 ∧
      (∀ pr ∈ ps,
        pr.1 + pr.2 = S ∧ pr.1 ∈ ([a, b] : List Nat) ∧ pr.2 ∈ ([a, b] : List Nat)) ∧
      pairContains (ps.headD (0, 0)) (([a, b] : List Nat).getD 0 0) ∧
      pairContains (ps.getLastD (0, 0)) (([a, b] : List Nat).getD 1 0) := by
  have habS : a + b = S := by
    have := mirror_of_count_closed S [a, b] hs hb hc 0 (by simp)
    simpa using this
  have heq : generateBracketPairings fuel [a, b] = some [(a, b)] := by
    cases fuel <;> rfl
  refine ⟨[(a, b)], heq, by simp, ?_, Or.inl rfl, Or.inr rfl⟩
  intro pr hpr
  rcases List.mem_cons.mp hpr with rfl | h
  · exact ⟨habS, by simp, by simp⟩
  · cases h

theorem bracket_spec (S : Nat) :
    ∀ (fuel j : Nat) (l : List Nat),
      1 ≤ j → l.length = 2 ^ j → l.length ≤ fuel + 2 →
      l.Sorted (· ≤ ·) → (∀ x ∈ l, x ≤ S) →
      (∀ x, x ≤ S → l.count x = l.count (S - x)) →
      ∃ ps, generateBracketPairings fuel l = some ps ∧
        ps.length = l.length / 2 ∧
        (∀ pr ∈ ps, pr.1 + pr.2 = S ∧ pr.1 ∈ l ∧ pr.2 ∈ l) ∧
        pairContains (ps.headD (0, 0)) (l.getD 0 0) ∧
        pairContains (ps.getLastD (0, 0)) (l.getD 1 0) := by
  intro fuel
  induction fuel with
  | zero =>
    intro j l hj hlen hfuel hs hb hc
    have h2 : l.length = 2 := by
      have : 2 ≤ 2 ^ j := by
        calc 2 = 2 ^ 1 := rfl
          _ ≤ 2 ^ j := Nat.pow_le_pow_right (by omega) hj
      omega
    cases l with
    | nil => simp at h2
    | cons a l1 =>
      cases l1 with
      | nil => simp at h2
      | cons b l2 =>
        cases l2 with
        | nil => exact bracket_base S 0 a b hs hb hc
        | cons c l3 => simp at h2
  | succ f ih =>
    intro j l hj hlen hfuel hs hb hc
    by_cases h2 : l.length = 2
    · cases l with
      | nil => simp at h2
      | cons a l1 =>
        cases l1 with
        | nil => simp at h2
        | cons b l2 =>
          cases l2 with
          | nil => exact bracket_base S (f + 1) a b hs hb hc
          | cons c l3 => simp at h2
    · have hj2 : 2 ≤ j := by
        rcases Nat.lt_or_ge j 2 with h | h
        · interval_cases j
          omega
        · exact h
      have hm1 : 1 ≤ 2 ^ (j - 2) := Nat.one_le_two_pow
      have hm : l.length = 4 * 2 ^ (j - 2) := by
        rw [hlen]
        conv_lhs => rw [show j = (j - 2) + 2 by omega]
        rw [pow_succ, pow_succ]
        ring
      have hj1 : 2 ^ (j - 1) = 2 * 2 ^ (j - 2) := by
        rw [show j - 1 = (j - 2) + 1 by omega, pow_succ]
        ring
      have hn4 : 4 ≤ l.length := by omega
      have heven : l.length % 2 = 0 := by omega
      have hhe : (l.length / 2) % 2 = 0 := by omega
      obtain ⟨hT1, hT2, hT3, hT4, hT5⟩ :=
        split_top_spec S l hn4 heven hhe hs hb hc
      obtain ⟨hB1, hB2, hB3, hB4, hB5⟩ :=
        split_bottom_spec S l hn4 heven hhe hs hb hc
      have hbT : ∀ x ∈ sortBy (fun a b => a ≤ b) (splitHalves l).1, x ≤ S :=
        fun x hx => hb x (hT3 x hx)
      have hbB : ∀ x ∈ sortBy (fun a b => a ≤ b) (splitHalves l).2, x ≤ S :=
        fun x hx => hb x (hB3 x hx)
      have hTlen : (sortBy (fun a b => a ≤ b) (splitHalves l).1).length =
          2 ^ (j - 1) := by omega
      have hBlen : (sortBy (fun a b => a ≤ b) (splitHalves l).2).length =
          2 ^ (j - 1) := by omega
      have hTfuel : (sortBy (fun a b => a ≤ b) (splitHalves l).1).length ≤
          f + 2 := by omega
      have hBfuel : (sortBy (fun a b => a ≤ b) (splitHalves l).2).length ≤
          f + 2 := by omega
      obtain ⟨psT, hTeq, ihT1, ihT2, ihT3, ihT4⟩ :=
        ih (j - 1) (sortBy (fun a b => a ≤ b) (splitHalves l).1)
          (by omega) hTlen hTfuel hT2 hbT hT4
      obtain ⟨psB, hBeq, ihB1, ihB2, ihB3, ihB4⟩ :=
        ih (j - 1) (sortBy (fun a b => a ≤ b) (splitHalves l).2)
          (by omega) hBlen hBfuel hB2 hbB hB4
      cases l with
      | nil => simp at hn4
      | cons a l1 =>
        cases l1 with
        | nil => simp at hn4
        | cons b l2 =>
          cases l2 with
          | nil => simp at hn4
          | cons c l3 =>
            refine ⟨psT ++ psB.reverse, ?_, ?_, ?_, ?_, ?_⟩
            · have heq : generateBracketPairings (f + 1) (a :: b :: c :: l3) =
                  match generateBracketPairings f
                      (sortBy (fun x y => x ≤ y)
                        (splitHalves (a :: b :: c :: l3)).1),
                    generateBracketPairings f
                      (sortBy (fun x y => x ≤ y)
                        (splitHalves (a :: b :: c :: l3)).2) with
                  | some tp, some bp => some (tp ++ bp.reverse)
                  | _, _ => none := rfl
              rw [heq, hTeq, hBeq]
            · rw [List.length_append, List.length_reverse, ihT1, ihB1]
              omega
            · intro pr hpr
              rcases List.mem_append.mp hpr with h | h
              · obtain ⟨hsum, hm1, hm2⟩ := ihT2 pr h
                exact ⟨hsum, hT3 _ hm1, hT3 _ hm2⟩
              · obtain ⟨hsum, hm1, hm2⟩ := ihB2 pr (List.mem_reverse.mp h)
                exact ⟨hsum, hB3 _ hm1, hB3 _ hm2⟩
            · have htplen : 0 < psT.length := by
                rw [ihT1]
                omega
              cases htp : psT with
              | nil =>
                rw [htp] at htplen
                simp at htplen
              | cons p tp =>
                rw [htp] at ihT3
                rw [List.cons_append]
                rw [← hT5]
                exact ihT3
            · have hbplen : 0 < psB.length := by
                rw [ihB1]
                omega
              cases hbp : psB with
              | nil =>
                rw [hbp] at hbplen
                simp at hbplen
              | cons q tq =>
                rw [hbp] at ihB3
                rw [List.reverse_cons, ← List.append_assoc, List.getLastD_concat]
                rw [← hB5]
                exact ihB3

theorem getLastD_irrel {α : Type} (l : List α) (h : l ≠ []) (d d2 : α) :
    l.getLastD d = l.getLastD d2 := by
  rw [List.getLastD_eq_getLast?, List.getLastD_eq_getLast?,
    List.getLast?_eq_getLast l h]
  rfl

theorem getLastD_mapIdx {α : Type} :
    ∀ (l : List α) (f : Nat → α → α) (d : α), l ≠ [] →
      (List.mapIdx f l).getLastD d = f (l.length - 1) (l.getLastD d) := by
  intro l
  induction l with
  | nil =>
    intro f d h
    exact absurd rfl h
  | cons a t ih =>
    intro f d h
    rw [List.mapIdx_cons]
    cases t with
    | nil => simp
    | cons b t2 =>
      rw [List.getLastD_cons, ih (fun i => f (i + 1)) (f 0 a) (by simp)]
      rw [getLastD_irrel (b :: t2) (by simp) (f 0 a) a]
      conv_rhs => rw [List.getLastD_cons]
      have hl : (b :: t2).length - 1 + 1 = (a :: b :: t2).length - 1 := by
        simp
      rw [hl]

theorem pairContains_swapIdx (i : Nat) (pr : Nat × Nat) (x : Nat)
    (h : pairContains pr x) :
    pairContains (if i % 2 == 0 then pr else (pr.2, pr.1)) x := by
  unfold pairContains at *
  split_ifs
  · exact h
  · rcases h with h | h
    · exact Or.inr h
    · exact Or.inl h

/-- Claim C6 (amended): for every break size `B = 2^k` (`k ≥ 1`) the bracket
recursion terminates (fuel `B` suffices) and the emitted index pairs (over
seeds `index + 1`) satisfy the halving invariants: `B/2` pairs, every pair's
seeds sum to `B + 1`, seed 1 (index 0) is in the first emitted pair and
seed 2 (index 1) in the last.  For `B = 8` the emitted matchups in order are
{1,8}, {4,5}, {3,6}, {2,7}; because the leftover swap pass reverses the
odd-indexed pairs in place, the ordered tuples actually emitted are
`(0,7), (4,3), (2,5), (6,1)` at the index level. -/
theorem bracket_halving_invariants (k : Nat) (hk : 1 ≤ k) :
    (∃ ps, firstElimIndexPairs (2 ^ k) = some ps ∧
      ps.length = 2 ^ k / 2 ∧
      (∀ pr ∈ ps,
        (pr.1 + 1) + (pr.2 + 1) = 2 ^ k + 1 ∧ pr.1 < 2 ^ k ∧ pr.2 < 2 ^ k) ∧
      pairContains (ps.headD (0, 0)) 0 ∧
      pairContains (ps.getLastD (0, 0)) 1) ∧
    firstElimIndexPairs 8 = some [(0, 7), (4, 3), (2, 5), (6, 1)] ∧
    (firstElimIndexPairs 8).map (List.map normPair) =
      some [(0, 7), (3, 4), (2, 5), (1, 6)] := by
  have hpos : 0 < 2 ^ k := Nat.two_pow_pos k
  have h2k : 2 ≤ 2 ^ k := by
    calc 2 = 2 ^ 1 := rfl
      _ ≤ 2 ^ k := Nat.pow_le_pow_right (by omega) hk
  have hlenr : (List.range (2 ^ k)).length = 2 ^ k := List.length_range _
  have hsr : (List.range (2 ^ k)).Sorted (· ≤ ·) :=
    (List.pairwise_lt_range _).imp Nat.le_of_lt
  have hbr : ∀ x ∈ List.range (2 ^ k), x ≤ 2 ^ k - 1 := by
    intro x hx
    have := List.mem_range.mp hx
    omega
  have hcr : ∀ x, x ≤ 2 ^ k - 1 →
      (List.range (2 ^ k)).count x = (List.range (2 ^ k)).count (2 ^ k - 1 - x) := by
    intro x hx
    have h1 : (List.range (2 ^ k)).count x = 1 :=
      List.count_eq_one_of_mem (List.nodup_range _) (List.mem_range.mpr (by omega))
    have h2 : (List.range (2 ^ k)).count (2 ^ k - 1 - x) = 1 :=
      List.count_eq_one_of_mem (List.nodup_range _) (List.mem_range.mpr (by omega))
    rw [h1, h2]
  obtain ⟨ps0, hgen, hs1, hs2, hs3, hs4⟩ := bracket_spec (2 ^ k - 1) (2 ^ k) k
    (List.range (2 ^ k)) hk (by rw [hlenr]) (by omega) hsr hbr hcr
  have hg0 : (List.range (2 ^ k)).getD 0 0 = 0 := by
    rw [List.getD_eq_getElem _ _ (by omega)]
    simp
  have hg1 : (List.range (2 ^ k)).getD 1 0 = 1 := by
    rw [List.getD_eq_getElem _ _ (by omega)]
    simp
  rw [hg0] at hs3
  rw [hg1] at hs4
  rw [hlenr] at hs1
  have hps : 0 < ps0.length := by omega
  refine ⟨⟨applySwapAliasing ps0, ?_, ?_, ?_, ?_, ?_⟩, by decide, by decide⟩
  · show (generateBracketPairings (2 ^ k) (List.range (2 ^ k))).map
      applySwapAliasing = some (applySwapAliasing ps0)
    rw [hgen]
    rfl
  · rw [applySwapAliasing, List.length_mapIdx]
    omega
  · intro pr hpr
    rw [applySwapAliasing] at hpr
    obtain ⟨i, hi, hpe⟩ := List.mem_iff_getElem.mp hpr
    rw [List.getElem_mapIdx] at hpe
    have hmem := List.getElem_mem (by
      rw [List.length_mapIdx] at hi
      exact hi : i < ps0.length)
    obtain ⟨hsum, hm1, hm2⟩ := hs2 _ hmem
    have hlt1 := List.mem_range.mp hm1
    have hlt2 := List.mem_range.mp hm2
    rw [← hpe]
    by_cases hpar : (i % 2 == 0) = true
    · rw [if_pos hpar]
      exact ⟨by omega, hlt1, hlt2⟩
    · rw [if_neg hpar]
      exact ⟨by simp only []; omega, hlt2, hlt1⟩
  · rw [applySwapAliasing]
    cases hc : ps0 with
    | nil =>
      rw [hc] at hps
      simp at hps
    | cons p tp =>
      rw [List.mapIdx_cons]
      show pairContains (if 0 % 2 == 0 then p else (p.2, p.1)) 0
      rw [hc] at hs3
      exact pairContains_swapIdx 0 p 0 hs3
  · rw [applySwapAliasing]
    have hne : ps0 ≠ [] := by
      intro h
      rw [h] at hps
      simp at hps
    rw [getLastD_mapIdx _ _ _ hne]
    exact pairContains_swapIdx _ _ 1 hs4

theorem bracket_halving_invariants_witness :
    1 ≤ 3 ∧ ∃ ps, firstElimIndexPairs (2 ^ 3) = some ps ∧
      pairContains (ps.headD (0, 0)) 0 :=
  ⟨by decide, by
    obtain ⟨⟨ps, h1, h2, h3, h4, h5⟩, h6, h7⟩ :=
      bracket_halving_invariants 3 (by decide)
    exact ⟨ps, h1, h4⟩⟩

/-- Claim C6 counterexample: the source builds `allPairingsSwapped` with
`allPairings[p].reverse()`; `Array.prototype.reverse` mutates in place, so
the emission loop reads the odd-indexed pairs reversed.  As ordered
`(high, low)` tuples the round-of-8 emission is therefore
`(1,8), (5,4), (3,6), (7,2)` in seed terms — not `(1,8), (4,5), (3,6), (2,7)`
as the spec enumerates.  The recursion itself produces the spec's tuples. -/
theorem bracket_swap_orientation_cex :
    (firstElimIndexPairs 8).map (List.map (fun pr => (pr.1 + 1, pr.2 + 1))) =
      some [(1, 8), (5, 4), (3, 6), (7, 2)] ∧
    generateBracketPairings 8 (List.range 8) =
      some [(0, 7), (3, 4), (2, 5), (1, 6)] ∧
    firstElimIndexPairs 8 ≠ generateBracketPairings 8 (List.range 8) := by
  refine ⟨by decide, by decide, by decide⟩

theorem reportResult_error_state_witness :
    (reportResult stateA1 99 "A" none).2.isSome = true ∧
    (reportResult stateA1 99 "A" none).1.teams = stateA1.teams :=
  ⟨by decide, (reportResult_error_state stateA1 99 "A" none (by decide)).1⟩

theorem pairRound_prelim_error_characterisation_witness :
    1 ≤ stateC.config.num_prelim_rounds ∧
    ((pairRoundLocal stateC 1 id coinsTT).2.isSome = true ↔
      ((2 < 1 ∧ ∃ r, 1 ≤ r ∧ r < 1 ∧
         ∃ m ∈ stateC.matches', m.round_num = r ∧ m.result = none) ∨
       ∃ m ∈ stateC.matches', m.round_num = 1)) :=
  ⟨by decide,
    (pairRound_prelim_error_characterisation stateC 1 id coinsTT (by decide)).1⟩

theorem elim_subsequent_pairs_winners_in_order_witness :
    2 ≤ 3 - (initLocal 2 1 1 []).config.num_prelim_rounds ∧
    2 ^ (initLocal 2 1 1 []).config.num_elim_rounds ≤
      (initLocal 2 1 1 []).teams.length ∧
    ((∃ m ∈ (initLocal 2 1 1 []).matches'.filter
        (fun m => m.round_num == 3 - 1), m.result = none) →
      generateElimPairingsBefore (initLocal 2 1 1 []) 3 =
        ((initLocal 2 1 1 []),
         Except.error ("Round " ++ toString (3 - 1) ++ " is not complete"))) :=
  ⟨by decide, by decide,
    (elim_subsequent_pairs_winners_in_order (initLocal 2 1 1 []) 3
      (by decide) (by decide)).1⟩

theorem recalculate_erases_bye_witness :
    (∀ m ∈ stateB1.matches', m.aff_id ≠ -1 ∧ m.neg_id ≠ -1) ∧
    (∀ m ∈ stateB1.matches', m.aff_id ≠ m.neg_id) ∧
    ((stateB1.teams.find? (fun t => t.id == 4)).map
      (fun t => (t.score, t.opponents)) = some (1, [-1])) :=
  ⟨by decide, by decide,
    (recalculate_erases_bye stateB1 (by decide) (by decide)).2.1⟩
